import Mathlib

/-!
# Verification of the freshness-service analytics and retrieval core

Shallow embedding of the Python backend (`src/backend/...`) of
`ersincodes/freshness-service`, together with proofs settling the frozen
claims about its specification.

Conventions:
* Python `int` is embedded as `Int` (`Nat` where the source guarantees
  non-negativity), Python `str` as Lean `String`, Python `list` as `List`,
  Python `dict` as an association `List` with last-write-wins lookup
  (insertion order preserved, as in CPython).
* Fallible code (`raise`) is embedded as `Except`.
* Dates follow the proleptic Gregorian calendar used by Python's
  `datetime` module; `datetime(y, m, d, tzinfo=utc).timestamp()` is
  embedded as `epochOfDate` below.
-/

namespace FreshnessService

/-! ## Calendar model

Embeds the proleptic Gregorian calendar arithmetic performed by Python's
`datetime` when the source converts dates to UTC epoch seconds
(`src/backend/analytics/sql_compiler.py`, `src/backend/documents.py`).
`toordinal y m d` is Python's `date(y, m, d).toordinal()`; the epoch of
1970-01-01 has ordinal 719163. -/

def isLeap (y : Nat) : Bool :=
  y % 4 == 0 && (y % 100 != 0 || y % 400 == 0)

def daysInMonth (y : Nat) (m : Nat) : Nat :=
  match m with
  | 1 => 31
  | 2 => if isLeap y then 29 else 28
  | 3 => 31
  | 4 => 30
  | 5 => 31
  | 6 => 30
  | 7 => 31
  | 8 => 31
  | 9 => 30
  | 10 => 31
  | 11 => 30
  | 12 => 31
  | _ => 0

def daysBeforeMonth (y : Nat) (m : Nat) : Nat :=
  match m with
  | 1 => 0
  | 2 => 31
  | 3 => 59 + (if isLeap y then 1 else 0)
  | 4 => 90 + (if isLeap y then 1 else 0)
  | 5 => 120 + (if isLeap y then 1 else 0)
  | 6 => 151 + (if isLeap y then 1 else 0)
  | 7 => 181 + (if isLeap y then 1 else 0)
  | 8 => 212 + (if isLeap y then 1 else 0)
  | 9 => 243 + (if isLeap y then 1 else 0)
  | 10 => 273 + (if isLeap y then 1 else 0)
  | 11 => 304 + (if isLeap y then 1 else 0)
  | 12 => 334 + (if isLeap y then 1 else 0)
  | _ => 0

/-- Days strictly before year `y` in the proleptic Gregorian calendar
(Python's `date(y, 1, 1).toordinal() - 1`). -/
def daysBeforeYear (y : Nat) : Nat :=
  (y - 1) * 365 + (y - 1) / 4 - (y - 1) / 100 + (y - 1) / 400

/-- Python's `date(y, m, d).toordinal()`. -/
def toordinal (y m d : Nat) : Nat :=
  daysBeforeYear y + daysBeforeMonth y m + d

/-- A calendar date Python's `datetime` accepts. -/
def validDate (y m d : Nat) : Prop :=
  1 ≤ y ∧ 1 ≤ m ∧ m ≤ 12 ∧ 1 ≤ d ∧ d ≤ daysInMonth y m

instance (y m d : Nat) : Decidable (validDate y m d) := by
  unfold validDate; infer_instance

/-- Embedding of `int(datetime(y, m, d, tzinfo=timezone.utc).timestamp())`. -/
def epochOfDate (y m d : Nat) : Int :=
  ((toordinal y m d : Int) - 719163) * 86400

example : epochOfDate 1970 1 1 = 0 := by decide
example : epochOfDate 2021 1 1 = 1609459200 := by decide
example : epochOfDate 2021 3 1 = 1614556800 := by decide

set_option maxHeartbeats 1000000 in
theorem daysBeforeYear_succ (y : Nat) (hy : 1 ≤ y) :
    daysBeforeYear (y + 1) = daysBeforeYear y + 365 + (if isLeap y then 1 else 0) := by
  have hleap : (isLeap y = true) ↔ (y % 4 = 0 ∧ (y % 100 ≠ 0 ∨ y % 400 = 0)) := by
    simp [isLeap, Nat.and_comm]
  unfold daysBeforeYear
  by_cases hl : isLeap y = true
  · rw [if_pos hl]
    have := hleap.mp hl
    omega
  · rw [if_neg hl]
    rw [hleap] at hl
    push_neg at hl
    omega

theorem daysBeforeMonth_add_le (y m d : Nat) (hm1 : 1 ≤ m) (hm2 : m ≤ 12)
    (hd : d ≤ daysInMonth y m) :
    daysBeforeMonth y m + d ≤ 365 + (if isLeap y then 1 else 0) := by
  interval_cases m <;>
    simp only [daysBeforeMonth, daysInMonth] at * <;>
    by_cases h : isLeap y <;> simp [h] at * <;> omega

theorem toordinal_year_lower (y m d : Nat) (hv : validDate y m d) :
    toordinal y 1 1 ≤ toordinal y m d := by
  obtain ⟨_, hm1, hm2, hd1, _⟩ := hv
  unfold toordinal
  have : daysBeforeMonth y 1 = 0 := rfl
  have hge : 0 ≤ daysBeforeMonth y m := Nat.zero_le _
  omega

theorem toordinal_year_upper (y m d : Nat) (hv : validDate y m d) :
    toordinal y m d < toordinal (y + 1) 1 1 := by
  obtain ⟨hy, hm1, hm2, hd1, hd2⟩ := hv
  unfold toordinal
  have h1 := daysBeforeYear_succ y hy
  have h2 := daysBeforeMonth_add_le y m d hm1 hm2 hd2
  have : daysBeforeMonth y 1 = 0 := rfl
  have : daysBeforeMonth (y + 1) 1 = 0 := rfl
  omega

theorem daysBeforeYear_le_succ (y : Nat) :
    daysBeforeYear y ≤ daysBeforeYear (y + 1) := by
  rcases Nat.eq_zero_or_pos y with h0 | h1
  · subst h0; decide
  · have := daysBeforeYear_succ y h1
    omega

theorem daysBeforeYear_mono {a b : Nat} (h : a ≤ b) :
    daysBeforeYear a ≤ daysBeforeYear b := by
  induction h with
  | refl => exact le_refl _
  | step _ ih => exact le_trans ih (daysBeforeYear_le_succ _)

theorem daysBeforeMonth_one (y : Nat) : daysBeforeMonth y 1 = 0 := rfl

theorem toordinal_lt_of_year_lt {y m d Y : Nat} (hv : validDate y m d) (h : y < Y) :
    toordinal y m d < toordinal Y 1 1 := by
  calc toordinal y m d < toordinal (y + 1) 1 1 := toordinal_year_upper y m d hv
    _ ≤ toordinal Y 1 1 := by
        unfold toordinal
        have := daysBeforeYear_mono (show y + 1 ≤ Y from h)
        have h1 := daysBeforeMonth_one (y + 1)
        have h2 := daysBeforeMonth_one Y
        omega

theorem toordinal_le_of_year_le {y m d Y : Nat} (hv : validDate y m d) (h : Y ≤ y) :
    toordinal Y 1 1 ≤ toordinal y m d := by
  calc toordinal Y 1 1 ≤ toordinal y 1 1 := by
        unfold toordinal
        have := daysBeforeYear_mono h
        have h1 := daysBeforeMonth_one y
        have h2 := daysBeforeMonth_one Y
        omega
    _ ≤ toordinal y m d := toordinal_year_lower y m d hv

/-- A valid date's ordinal lies in year `Y`'s half-open ordinal range
exactly when its calendar year is `Y`. -/
theorem toordinal_year_range_iff {y m d : Nat} (Y : Nat) (hv : validDate y m d) :
    (toordinal Y 1 1 ≤ toordinal y m d ∧ toordinal y m d < toordinal (Y + 1) 1 1) ↔
      y = Y := by
  constructor
  · rintro ⟨h1, h2⟩
    by_contra hne
    rcases Nat.lt_or_ge y Y with hlt | hge
    · exact absurd h1 (not_le.mpr (toordinal_lt_of_year_lt hv hlt))
    · have hgt : Y + 1 ≤ y := by omega
      exact absurd h2 (not_lt.mpr (toordinal_le_of_year_le hv hgt))
  · rintro rfl
    exact ⟨toordinal_year_lower y m d hv, toordinal_year_upper y m d hv⟩

theorem daysBeforeMonth_succ_eq (y m : Nat) (hm1 : 1 ≤ m) (hm2 : m ≤ 11) :
    daysBeforeMonth y (m + 1) = daysBeforeMonth y m + daysInMonth y m := by
  interval_cases m <;>
    simp only [daysBeforeMonth, daysInMonth] <;>
    by_cases h : isLeap y <;> simp [h]

theorem one_le_daysInMonth (y m : Nat) (h1 : 1 ≤ m) (h2 : m ≤ 12) :
    1 ≤ daysInMonth y m := by
  interval_cases m <;> simp only [daysInMonth] <;> (try split) <;> omega

theorem daysBeforeMonth_mono (y : Nat) {a b : Nat} (ha : 1 ≤ a) (hb : b ≤ 12)
    (h : a ≤ b) : daysBeforeMonth y a ≤ daysBeforeMonth y b := by
  have key : ∀ n, a ≤ n → n ≤ 12 → daysBeforeMonth y a ≤ daysBeforeMonth y n := by
    intro n
    induction n with
    | zero => intro h1 _; omega
    | succ k ih =>
        intro h1 h2
        rcases Nat.lt_or_ge k a with hk | hk
        · have : a = k + 1 := by omega
          subst this; exact le_refl _
        · have hstep := daysBeforeMonth_succ_eq y k (by omega) (by omega)
          have := ih hk (by omega)
          omega
  exact key b h hb

theorem toordinal_month_upper {y m d : Nat} (hv : validDate y m d) (hm : m ≤ 11) :
    toordinal y m d < toordinal y (m + 1) 1 := by
  obtain ⟨hy, hm1, hm2, hd1, hd2⟩ := hv
  unfold toordinal
  have := daysBeforeMonth_succ_eq y m hm1 hm
  omega

/-- A valid date's ordinal lies in month `(Y, M)`'s half-open ordinal range
(the range's end wraps to January of `Y + 1` when `M = 12`) exactly when its
calendar year and month are `(Y, M)`. -/
theorem toordinal_month_range_iff {y m d : Nat} (Y M : Nat) (hv : validDate y m d)
    (hY : 1 ≤ Y) (hM1 : 1 ≤ M) (hM2 : M ≤ 12) :
    (toordinal Y M 1 ≤ toordinal y m d ∧
      toordinal y m d <
        (if M = 12 then toordinal (Y + 1) 1 1 else toordinal Y (M + 1) 1)) ↔
      (y = Y ∧ m = M) := by
  obtain ⟨hy, hm1, hm2, hd1, hd2⟩ := hv
  constructor
  · rintro ⟨h1, h2⟩
    -- the month range is contained in the year range, so the year agrees
    have hyY : y = Y := by
      apply (toordinal_year_range_iff Y ⟨hy, hm1, hm2, hd1, hd2⟩).mp
      constructor
      · calc toordinal Y 1 1 ≤ toordinal Y M 1 := by
              unfold toordinal
              have h0 := daysBeforeMonth_one Y
              have := daysBeforeMonth_mono Y (a := 1) (b := M) le_rfl hM2 hM1
              omega
          _ ≤ toordinal y m d := h1
      · by_cases h12 : M = 12
        · rw [if_pos h12] at h2; exact h2
        · rw [if_neg h12] at h2
          calc toordinal y m d < toordinal Y (M + 1) 1 := h2
            _ ≤ toordinal (Y + 1) 1 1 := by
                unfold toordinal
                have hone := one_le_daysInMonth Y (M + 1) (by omega) (by omega)
                have hb := daysBeforeMonth_add_le Y (M + 1) 1
                  (by omega) (by omega) hone
                have hsucc := daysBeforeYear_succ Y hY
                have h0 := daysBeforeMonth_one (Y + 1)
                omega
    subst hyY
    refine ⟨rfl, ?_⟩
    -- same year: compare months through daysBeforeMonth
    by_contra hne
    rcases Nat.lt_or_ge m M with hlt | hge
    · -- m < M: the date ends before the range starts
      have : toordinal y m d < toordinal y M 1 := by
        unfold toordinal
        have hstep := daysBeforeMonth_succ_eq y m hm1 (by omega)
        have := daysBeforeMonth_mono y (a := m + 1) (b := M) (by omega) hM2 (by omega)
        omega
      omega
    · have hgt : M < m := by omega
      by_cases h12 : M = 12
      · omega
      · rw [if_neg h12] at h2
        have : toordinal y (M + 1) 1 ≤ toordinal y m d := by
          unfold toordinal
          have := daysBeforeMonth_mono y (a := M + 1) (b := m) (by omega) hm2 (by omega)
          omega
        omega
  · rintro ⟨rfl, rfl⟩
    refine ⟨?_, ?_⟩
    · unfold toordinal; omega
    · by_cases h12 : m = 12
      · rw [if_pos h12]
        exact toordinal_year_upper y m d ⟨hy, hm1, hm2, hd1, hd2⟩
      · rw [if_neg h12]
        exact toordinal_month_upper ⟨hy, hm1, hm2, hd1, hd2⟩ (by omega)

/-- Epoch seconds of an ordinal (midnight UTC). -/
def epochOfOrdinal (n : Nat) : Int :=
  ((n : Int) - 719163) * 86400

theorem epochOfDate_eq_epochOfOrdinal (y m d : Nat) :
    epochOfDate y m d = epochOfOrdinal (toordinal y m d) := rfl

theorem epochOfOrdinal_le_iff (a t : Nat) (sec : Nat) (hs : sec < 86400) :
    (epochOfOrdinal a ≤ epochOfOrdinal t + sec) ↔ a ≤ t := by
  unfold epochOfOrdinal
  constructor
  · intro h
    by_contra hlt
    push_neg at hlt
    have : (t : Int) + 1 ≤ (a : Int) := by exact_mod_cast hlt
    nlinarith [h]
  · intro h
    have : (a : Int) ≤ (t : Int) := by exact_mod_cast h
    nlinarith [Int.ofNat_nonneg sec]

theorem epochOfOrdinal_lt_iff (t b : Nat) (sec : Nat) (hs : sec < 86400) :
    (epochOfOrdinal t + sec < epochOfOrdinal b) ↔ t < b := by
  unfold epochOfOrdinal
  constructor
  · intro h
    by_contra hge
    push_neg at hge
    have : (b : Int) ≤ (t : Int) := by exact_mod_cast hge
    nlinarith [Int.ofNat_nonneg sec]
  · intro h
    have : (t : Int) + 1 ≤ (b : Int) := by exact_mod_cast h
    have hs' : (sec : Int) < 86400 := by exact_mod_cast hs
    nlinarith

/-! ## Data model (`src/backend/analytics/models.py`)

Operator and logical-type vocabularies are Python string literals; they are
embedded as `String` with list membership for the Python set-membership
tests. `AnalyticsFilter.value` is a Python union; the constructors cover
the payloads the claims exercise (`str`, `int`, `bool`, lists), with
`pyStr` embedding Python's `str()` on them (lists stringify to a
placeholder that, like Python's `str(list)`, is never a valid ISO date). -/

def NUMERIC_ONLY_OPS : List String := ["gt", "gte", "lt", "lte"]

def STRING_ONLY_OPS : List String := ["contains", "startswith"]

def DATE_ONLY_OPS : List String := ["year_equals", "month_equals", "between_dates"]

def UNIVERSAL_OPS : List String := ["eq", "neq", "is_null", "is_not_null"]

structure ColumnMetadata where
  column_name : String
  logical_type : String
  sqlite_type : String
  nullable : Bool
  original_name : String
  safe_name : String
deriving DecidableEq, Repr

inductive PyValue where
  | str (s : String)
  | int (n : Int)
  | bool (b : Bool)
  | list (vs : List PyValue)

def pyStr : PyValue → String
  | .str s => s
  | .int n => toString n
  | .bool b => if b then "True" else "False"
  | .list _ => "[list value]"

structure AnalyticsFilter where
  column : String
  operator : String
  value : Option PyValue

structure AnalyticsPlan where
  document_id : String
  sheet_name : Option String
  operation : String
  target_column : Option String
  group_by : Option String
  filters : List AnalyticsFilter
  order : String
  top_n : Int
  select_columns : Option (List String)
  limit : Int

/-- Python truthiness of an `Optional[str]` (`None` and `""` are falsy). -/
def optStrTruthy : Option String → Bool
  | none => false
  | some s => s ≠ ""

/-- Lookup in a Python dict embedded as an association list
(last write wins, as built by repeated assignment). -/
def dictGet (l : List (String × ColumnMetadata)) (k : String) : Option ColumnMetadata :=
  match l.reverse.find? (fun p => p.1 = k) with
  | some p => some p.2
  | none => none

def dictContains (l : List (String × ColumnMetadata)) (k : String) : Bool :=
  (l.find? (fun p => p.1 = k)).isSome

/-! ## SQL compiler (`src/backend/analytics/sql_compiler.py`)

`PyError` distinguishes the `AnalyticsCompilationError` raised by the
module from a bare Python `ValueError` escaping it. -/

inductive PyError where
  | analyticsCompilation (msg : String)
  | valueError (msg : String)
deriving DecidableEq, Repr

def digitVal (c : Char) : Option Nat :=
  if c.isDigit then some (c.toNat - 48) else none

/-- Python's `str.strip()` as a character-list operation (kernel-reducible,
unlike `String.trim`). -/
def pyStrip (s : String) : List Char :=
  ((s.toList.dropWhile Char.isWhitespace).reverse.dropWhile Char.isWhitespace).reverse

/-- Embeds `datetime.date.fromisoformat` on `YYYY-MM-DD` input (the format
the spec names); returns `none` exactly when Python raises `ValueError`.
Trims surrounding whitespace first, as every call site applies `.strip()`. -/
def parseIsoDate (s : String) : Option (Nat × Nat × Nat) :=
  match pyStrip s with
  | [y1, y2, y3, y4, s1, m1, m2, s2, d1, d2] =>
    match digitVal y1, digitVal y2, digitVal y3, digitVal y4,
        digitVal m1, digitVal m2, digitVal d1, digitVal d2 with
    | some a, some b, some c, some d, some e, some f, some g, some h =>
      if s1 = '-' ∧ s2 = '-' then
        let y := ((a * 10 + b) * 10 + c) * 10 + d
        let m := e * 10 + f
        let dd := g * 10 + h
        if validDate y m dd then some (y, m, dd) else none
      else none
    | _, _, _, _, _, _, _, _ => none
  | _ => none

/-- `_iso_to_epoch`: parse `YYYY-MM-DD` to UTC epoch seconds, wrapping the
parse failure into `AnalyticsCompilationError`. -/
def isoToEpoch (iso_date : String) : Except PyError Int :=
  match parseIsoDate iso_date with
  | some (y, m, d) => .ok (epochOfDate y m d)
  | none => .error (.analyticsCompilation ("Invalid ISO date: " ++ iso_date))

def rangeSql (safe_col : String) : String :=
  "(" ++ safe_col ++ " >= ? AND " ++ safe_col ++ " < ?)"

def compile_year_equals (safe_col : String) (year : Nat) : String × List Int :=
  (rangeSql safe_col, [epochOfDate year 1 1, epochOfDate (year + 1) 1 1])

def compile_month_equals (safe_col : String) (year month : Nat) : String × List Int :=
  let start := epochOfDate year month 1
  let stop := if month = 12 then epochOfDate (year + 1) 1 1
    else epochOfDate year (month + 1) 1
  (rangeSql safe_col, [start, stop])

/-- `compile_between_dates`: the start date goes through `_iso_to_epoch`
(`AnalyticsCompilationError` on failure), but the end date is handed to
`date.fromisoformat` directly, so a malformed end date escapes as a bare
`ValueError`. -/
def compile_between_dates (safe_col start_date end_date : String) :
    Except PyError (String × List Int) := do
  let start_epoch ← isoToEpoch start_date
  match parseIsoDate end_date with
  | none => .error (.valueError ("Invalid isoformat string: " ++ end_date))
  | some (y, m, d) =>
    .ok (rangeSql safe_col, [start_epoch, epochOfDate y m d + 86400])

theorem epochOfOrdinal_mono {a b : Nat} (h : a ≤ b) :
    epochOfOrdinal a ≤ epochOfOrdinal b := by
  unfold epochOfOrdinal
  have : (a : Int) ≤ (b : Int) := by exact_mod_cast h
  nlinarith

/-- C1: For every date-typed column, the SQL compiler expands date filter
operators into half-open UTC epoch ranges: `year_equals(Y)` compiles to
`(safe >= ? AND safe < ?)` with the epochs of Y-01-01 and (Y+1)-01-01, and
that range contains a stored date-cell epoch exactly when the cell's year
is Y; `month_equals` compiles to the analogous half-open month range with
December wrapping to January 1 of the next year; `between_dates(S, E)`
compiles to `[epoch(S), epoch(E) + 86400]`, which contains both endpoint
days entirely. -/
theorem date_ops_compile_to_half_open_epoch_ranges :
    (∀ (c : String) (Y y m d sec : Nat), 1 ≤ Y → validDate y m d → sec < 86400 →
      compile_year_equals c Y =
        (rangeSql c, [epochOfDate Y 1 1, epochOfDate (Y + 1) 1 1]) ∧
      ((epochOfDate Y 1 1 ≤ epochOfDate y m d + (sec : Int) ∧
          epochOfDate y m d + (sec : Int) < epochOfDate (Y + 1) 1 1) ↔ y = Y)) ∧
    (∀ (c : String) (Y M y m d sec : Nat), 1 ≤ Y → 1 ≤ M → M ≤ 12 →
      validDate y m d → sec < 86400 →
      compile_month_equals c Y M =
        (rangeSql c, [epochOfDate Y M 1,
          if M = 12 then epochOfDate (Y + 1) 1 1 else epochOfDate Y (M + 1) 1]) ∧
      ((epochOfDate Y M 1 ≤ epochOfDate y m d + (sec : Int) ∧
          epochOfDate y m d + (sec : Int) <
            (if M = 12 then epochOfDate (Y + 1) 1 1 else epochOfDate Y (M + 1) 1)) ↔
        (y = Y ∧ m = M))) ∧
    (∀ c S E ys ms ds ye me de, parseIsoDate S = some (ys, ms, ds) →
      parseIsoDate E = some (ye, me, de) →
      compile_between_dates c S E =
        .ok (rangeSql c, [epochOfDate ys ms ds, epochOfDate ye me de + 86400]) ∧
      (∀ sec : Nat, sec < 86400 → toordinal ys ms ds ≤ toordinal ye me de →
        (epochOfDate ys ms ds ≤ epochOfDate ys ms ds + (sec : Int) ∧
          epochOfDate ys ms ds + (sec : Int) < epochOfDate ye me de + 86400) ∧
        (epochOfDate ys ms ds ≤ epochOfDate ye me de + (sec : Int) ∧
          epochOfDate ye me de + (sec : Int) < epochOfDate ye me de + 86400))) := by
  refine ⟨?_, ?_, ?_⟩
  · intro c Y y m d sec _ hv hs
    refine ⟨rfl, ?_⟩
    rw [epochOfDate_eq_epochOfOrdinal, epochOfDate_eq_epochOfOrdinal,
      epochOfDate_eq_epochOfOrdinal,
      epochOfOrdinal_le_iff _ _ _ hs, epochOfOrdinal_lt_iff _ _ _ hs]
    exact toordinal_year_range_iff Y hv
  · intro c Y M y m d sec hY hM1 hM2 hv hs
    refine ⟨rfl, ?_⟩
    have hiff := toordinal_month_range_iff Y M hv hY hM1 hM2
    by_cases h12 : M = 12
    · rw [if_pos h12] at hiff ⊢
      rw [epochOfDate_eq_epochOfOrdinal, epochOfDate_eq_epochOfOrdinal,
        epochOfDate_eq_epochOfOrdinal,
        epochOfOrdinal_le_iff _ _ _ hs, epochOfOrdinal_lt_iff _ _ _ hs]
      exact hiff
    · rw [if_neg h12] at hiff ⊢
      rw [epochOfDate_eq_epochOfOrdinal, epochOfDate_eq_epochOfOrdinal,
        epochOfDate_eq_epochOfOrdinal,
        epochOfOrdinal_le_iff _ _ _ hs, epochOfOrdinal_lt_iff _ _ _ hs]
      exact hiff
  · intro c S E ys ms ds ye me de hS hE
    constructor
    · unfold compile_between_dates isoToEpoch
      rw [hS, hE]
      rfl
    · intro sec hs hle
      have hmono : epochOfDate ys ms ds ≤ epochOfDate ye me de := by
        rw [epochOfDate_eq_epochOfOrdinal, epochOfDate_eq_epochOfOrdinal]
        exact epochOfOrdinal_mono hle
      have hsec0 : (0 : Int) ≤ (sec : Int) := Int.ofNat_nonneg sec
      have hsec : (sec : Int) < 86400 := by exact_mod_cast hs
      refine ⟨⟨by omega, by omega⟩, ⟨by omega, by omega⟩⟩

theorem date_ops_compile_witness :
    compile_year_equals "col_d" 2021 =
      (rangeSql "col_d", [epochOfDate 2021 1 1, epochOfDate (2021 + 1) 1 1]) ∧
    ((epochOfDate 2021 1 1 ≤ epochOfDate 2021 5 7 + ((0 : Nat) : Int) ∧
        epochOfDate 2021 5 7 + ((0 : Nat) : Int) < epochOfDate (2021 + 1) 1 1) ↔
      2021 = 2021) ∧
    compile_month_equals "col_d" 2021 12 =
      (rangeSql "col_d", [epochOfDate 2021 12 1,
        if 12 = 12 then epochOfDate (2021 + 1) 1 1 else epochOfDate 2021 (12 + 1) 1]) ∧
    compile_between_dates "col_d" "2021-03-01" "2021-03-05" =
      .ok (rangeSql "col_d", [epochOfDate 2021 3 1, epochOfDate 2021 3 5 + 86400]) := by
  have h1 := date_ops_compile_to_half_open_epoch_ranges.1 "col_d" 2021 2021 5 7 0
    (by omega) (by decide) (by omega)
  have h2 := date_ops_compile_to_half_open_epoch_ranges.2.1 "col_d" 2021 12 2021 12 31 0
    (by omega) (by omega) (by omega) (by decide) (by omega)
  have h3 := date_ops_compile_to_half_open_epoch_ranges.2.2 "col_d"
    "2021-03-01" "2021-03-05" 2021 3 1 2021 3 5 (by decide) (by decide)
  exact ⟨h1.1, h1.2, h2.1, h3.1⟩

/-- C6: the claim says a malformed start or end ISO date in a
`between_dates` filter raises `AnalyticsCompilationError`. The code routes
only the start date through `_iso_to_epoch` (which wraps the failure); a
malformed end date reaches `date.fromisoformat` unprotected and escapes as
a bare `ValueError`, contradicting the module's documented error taxonomy. -/
theorem between_dates_malformed_end_escapes_as_value_error :
    compile_between_dates "col_d" "2024-01-01" "2024-13-99" =
      .error (.valueError ("Invalid isoformat string: " ++ "2024-13-99")) ∧
    compile_between_dates "col_d" "2024-13-99" "2024-01-01" =
      .error (.analyticsCompilation ("Invalid ISO date: " ++ "2024-13-99")) := by
  constructor <;> rfl

/-! ## Plan validator (`src/backend/analytics/validator.py`) -/

def OPS_REQUIRING_TARGET : List String :=
  ["count_distinct", "sum", "avg", "min", "max"]

def NUMERIC_AGGREGATES : List String := ["sum", "avg"]

/-- Python's `s.startswith('_')` (kernel-reducible form). -/
def startsWithUnderscore (s : String) : Bool :=
  match s.toList with
  | c :: _ => c = '_'
  | [] => false

/-- `{k: v for k, v in columns.items() if not k.startswith('_')}`. -/
def visibleColumns (columns : List (String × ColumnMetadata)) :
    List (String × ColumnMetadata) :=
  columns.filter (fun p => !(startsWithUnderscore p.1))

/-- Python's `a or b` on optional strings (first truthy operand). -/
def pyOrStr (a b : Option String) : Option String :=
  if optStrTruthy a then a else b

def _validate_operator_type_compat (operator : String) (meta : ColumnMetadata) :
    Except String Unit :=
  if operator ∈ UNIVERSAL_OPS then .ok ()
  else if operator ∈ NUMERIC_ONLY_OPS then
    if meta.logical_type ∉ ["integer", "float", "date"] then
      .error ("Operator " ++ operator ++ " not valid for " ++ meta.logical_type ++
        " column " ++ meta.column_name)
    else .ok ()
  else if operator ∈ STRING_ONLY_OPS then
    if meta.logical_type ≠ "string" then
      .error ("Operator " ++ operator ++ " not valid for " ++ meta.logical_type ++
        " column " ++ meta.column_name)
    else .ok ()
  else if operator ∈ DATE_ONLY_OPS then
    if meta.logical_type ≠ "date" then
      .error ("Operator " ++ operator ++ " not valid for " ++ meta.logical_type ++
        " column " ++ meta.column_name)
    else .ok ()
  else .ok ()

def checkRequiredTarget (plan : AnalyticsPlan) : Except String Unit :=
  if plan.operation ∈ OPS_REQUIRING_TARGET ∧ ¬optStrTruthy plan.target_column then
    .error ("target_column is required for operation " ++ plan.operation)
  else .ok ()

def checkTargetVisible (plan : AnalyticsPlan)
    (visible : List (String × ColumnMetadata)) : Except String Unit :=
  match plan.target_column with
  | some t =>
    if t ≠ "" ∧ (dictGet visible t).isNone then
      .error ("target_column " ++ t ++ " not found in columns")
    else .ok ()
  | none => .ok ()

/-- The `visible_columns[plan.target_column]` lookup cannot fail here in the
source because `checkTargetVisible` ran first; the unreachable `none` arm is
mapped to success. -/
def checkNumericAggregate (plan : AnalyticsPlan)
    (visible : List (String × ColumnMetadata)) : Except String Unit :=
  if plan.operation ∈ NUMERIC_AGGREGATES ∧ optStrTruthy plan.target_column then
    match plan.target_column with
    | some t =>
      match dictGet visible t with
      | some meta =>
        if meta.logical_type ∉ ["integer", "float"] then
          .error ("Operation " ++ plan.operation ++ " requires a numeric column, but " ++
            t ++ " is " ++ meta.logical_type)
        else .ok ()
      | none => .ok ()
    | none => .ok ()
  else .ok ()

def checkGroupBy (plan : AnalyticsPlan)
    (visible : List (String × ColumnMetadata)) : Except String Unit :=
  if plan.operation = "groupby_count" then
    let group_col := pyOrStr plan.group_by plan.target_column
    if ¬ optStrTruthy group_col then
      .error "groupby_count requires group_by or target_column"
    else if (dictGet visible (group_col.getD "")).isNone then
      .error ("group_by column not found in columns")
    else .ok ()
  else .ok ()

def checkCols (visible : List (String × ColumnMetadata)) :
    List String → Except String Unit
  | [] => .ok ()
  | c :: rest =>
    if (dictGet visible c).isNone then
      .error ("select_columns contains unknown column " ++ c)
    else checkCols visible rest

/-- `if plan.operation == 'select_rows' and plan.select_columns:` — an empty
list is falsy in Python. -/
def checkSelectColumns (plan : AnalyticsPlan)
    (visible : List (String × ColumnMetadata)) : Except String Unit :=
  if plan.operation = "select_rows" then
    match plan.select_columns with
    | some l => if l ≠ [] then checkCols visible l else .ok ()
    | none => .ok ()
  else .ok ()

def checkFilters (visible : List (String × ColumnMetadata)) :
    List AnalyticsFilter → Except String Unit
  | [] => .ok ()
  | f :: rest =>
    match dictGet visible f.column with
    | none => .error ("Filter column " ++ f.column ++ " not found in columns")
    | some meta => do
      _validate_operator_type_compat f.operator meta
      checkFilters visible rest

/-- `validate_plan` from `src/backend/analytics/validator.py`, with each
`raise` site as an `Except.error`, in source order. -/
def validate_plan (plan : AnalyticsPlan)
    (columns : List (String × ColumnMetadata)) : Except String Unit := do
  checkRequiredTarget plan
  checkTargetVisible plan (visibleColumns columns)
  checkNumericAggregate plan (visibleColumns columns)
  checkGroupBy plan (visibleColumns columns)
  checkSelectColumns plan (visibleColumns columns)
  checkFilters (visibleColumns columns) plan.filters

/-- Operator–type incompatibility as §3/§4.4 of the spec states it. -/
def opIncompatible (op lt : String) : Prop :=
  (op ∈ NUMERIC_ONLY_OPS ∧ lt ∉ ["integer", "float", "date"]) ∨
  (op ∈ STRING_ONLY_OPS ∧ lt ≠ "string") ∨
  (op ∈ DATE_ONLY_OPS ∧ lt ≠ "date")

theorem validate_plan_ok_stages {plan : AnalyticsPlan}
    {columns : List (String × ColumnMetadata)}
    (h : validate_plan plan columns = .ok ()) :
    checkRequiredTarget plan = .ok () ∧
    checkTargetVisible plan (visibleColumns columns) = .ok () ∧
    checkNumericAggregate plan (visibleColumns columns) = .ok () ∧
    checkGroupBy plan (visibleColumns columns) = .ok () ∧
    checkSelectColumns plan (visibleColumns columns) = .ok () ∧
    checkFilters (visibleColumns columns) plan.filters = .ok () := by
  unfold validate_plan at h
  cases h1 : checkRequiredTarget plan with
  | error e => rw [h1] at h; simp [Bind.bind, Except.bind] at h
  | ok u =>
  cases u
  rw [h1] at h
  simp only [Bind.bind, Except.bind] at h
  cases h2 : checkTargetVisible plan (visibleColumns columns) with
  | error e => rw [h2] at h; simp [Bind.bind, Except.bind] at h
  | ok u =>
  cases u
  rw [h2] at h
  simp only [Bind.bind, Except.bind] at h
  cases h3 : checkNumericAggregate plan (visibleColumns columns) with
  | error e => rw [h3] at h; simp [Bind.bind, Except.bind] at h
  | ok u =>
  cases u
  rw [h3] at h
  simp only [Bind.bind, Except.bind] at h
  cases h4 : checkGroupBy plan (visibleColumns columns) with
  | error e => rw [h4] at h; simp [Bind.bind, Except.bind] at h
  | ok u =>
  cases u
  rw [h4] at h
  simp only [Bind.bind, Except.bind] at h
  cases h5 : checkSelectColumns plan (visibleColumns columns) with
  | error e => rw [h5] at h; simp [Bind.bind, Except.bind] at h
  | ok u =>
  cases u
  rw [h5] at h
  simp only [Bind.bind, Except.bind] at h
  exact ⟨rfl, rfl, rfl, rfl, rfl, h⟩

theorem checkFilters_ok {visible : List (String × ColumnMetadata)}
    {fs : List AnalyticsFilter} (h : checkFilters visible fs = .ok ()) :
    ∀ f ∈ fs, ∃ meta, dictGet visible f.column = some meta ∧
      _validate_operator_type_compat f.operator meta = .ok () := by
  induction fs with
  | nil => intro f hf; cases hf
  | cons g rest ih =>
    intro f hf
    unfold checkFilters at h
    cases hd : dictGet visible g.column with
    | none => rw [hd] at h; simp at h
    | some meta =>
      rw [hd] at h
      simp only [Bind.bind, Except.bind] at h
      cases hc : _validate_operator_type_compat g.operator meta with
      | error e => rw [hc] at h; simp at h
      | ok u =>
        cases u
        rw [hc] at h
        rcases List.mem_cons.mp hf with rfl | hf'
        · exact ⟨meta, hd, hc⟩
        · exact ih h f hf'

theorem checkCols_ok {visible : List (String × ColumnMetadata)}
    {l : List String} (h : checkCols visible l = .ok ()) :
    ∀ c ∈ l, (dictGet visible c).isSome := by
  induction l with
  | nil => intro c hc; cases hc
  | cons a rest ih =>
    intro c hc
    unfold checkCols at h
    by_cases hd : (dictGet visible a).isNone
    · rw [if_pos hd] at h; simp at h
    · rw [if_neg hd] at h
      rcases List.mem_cons.mp hc with rfl | hc'
      · simpa [Option.isNone_iff_eq_none, Option.isSome_iff_ne_none] using hd
      · exact ih h c hc'

theorem compat_error_of_incompatible (op : String) (meta : ColumnMetadata)
    (h : opIncompatible op meta.logical_type) :
    ∃ e, _validate_operator_type_compat op meta = .error e := by
  rcases h with ⟨hop, hlt⟩ | ⟨hop, hlt⟩ | ⟨hop, hlt⟩ <;>
    fin_cases hop <;>
    simp [_validate_operator_type_compat, UNIVERSAL_OPS, NUMERIC_ONLY_OPS,
      STRING_ONLY_OPS, DATE_ONLY_OPS, hlt]

theorem dictGet_visible_eq_none {columns : List (String × ColumnMetadata)}
    {t : String} (h : startsWithUnderscore t = true) :
    dictGet (visibleColumns columns) t = none := by
  unfold dictGet
  cases hf : (visibleColumns columns).reverse.find? (fun p => p.1 = t) with
  | none => rfl
  | some p =>
    exfalso
    have hp : p.1 = t := by
      have := List.find?_some hf
      simpa using this
    have hmem : p ∈ visibleColumns columns := by
      have := List.mem_of_find?_eq_some hf
      simpa [List.mem_reverse] using this
    unfold visibleColumns at hmem
    rw [List.mem_filter] at hmem
    have h2 := hmem.2
    rw [hp] at h2
    simp [h] at h2

/-- C2: `validate_plan` raises a plan-validation error whenever a filter
applies a non-universal operator to a column of incompatible logical type
(gt/gte/lt/lte need integer, float or date; contains/startswith need
string; year_equals/month_equals/between_dates need date), and whenever
sum or avg targets a non-numeric column; universal operators skip the
compatibility check entirely. -/
theorem validate_plan_rejects_incompatible_operator_types :
    (∀ (plan : AnalyticsPlan) (columns : List (String × ColumnMetadata))
      (f : AnalyticsFilter) (meta : ColumnMetadata), f ∈ plan.filters →
      dictGet (visibleColumns columns) f.column = some meta →
      opIncompatible f.operator meta.logical_type →
      ∃ e, validate_plan plan columns = .error e) ∧
    (∀ (plan : AnalyticsPlan) (columns : List (String × ColumnMetadata))
      (t : String) (meta : ColumnMetadata),
      plan.operation ∈ NUMERIC_AGGREGATES → plan.target_column = some t → t ≠ "" →
      dictGet (visibleColumns columns) t = some meta →
      meta.logical_type ∉ ["integer", "float"] →
      ∃ e, validate_plan plan columns = .error e) ∧
    (∀ (op : String) (meta : ColumnMetadata), op ∈ UNIVERSAL_OPS →
      _validate_operator_type_compat op meta = .ok ()) := by
  refine ⟨?_, ?_, ?_⟩
  · intro plan columns f meta hf hd hinc
    cases hv : validate_plan plan columns with
    | error e => exact ⟨e, rfl⟩
    | ok u =>
      cases u
      exfalso
      have hfil := (validate_plan_ok_stages hv).2.2.2.2.2
      obtain ⟨meta', hd', hc⟩ := checkFilters_ok hfil f hf
      rw [hd] at hd'
      injection hd' with he
      subst he
      obtain ⟨e, hce⟩ := compat_error_of_incompatible f.operator meta hinc
      rw [hc] at hce
      exact Except.noConfusion hce
  · intro plan columns t meta hop hts htne hd hlt
    cases hv : validate_plan plan columns with
    | error e => exact ⟨e, rfl⟩
    | ok u =>
      cases u
      exfalso
      have hnum := (validate_plan_ok_stages hv).2.2.1
      unfold checkNumericAggregate at hnum
      rw [hts] at hnum
      simp [optStrTruthy, htne, hop, hd, hlt] at hnum
  · intro op meta hop
    fin_cases hop <;> rfl

theorem validate_plan_rejects_incompatible_witness :
    (∃ e, validate_plan
      { document_id := "doc-1", sheet_name := none, operation := "count_rows",
        target_column := none, group_by := none,
        filters := [⟨"When", "contains", some (.str "Jan")⟩],
        order := "count_desc", top_n := 50, select_columns := none, limit := 100 }
      [("When", ⟨"When", "date", "INTEGER", true, "When", "col_when"⟩)] = .error e) ∧
    (∃ e, validate_plan
      { document_id := "doc-1", sheet_name := none, operation := "sum",
        target_column := some "Name", group_by := none, filters := [],
        order := "count_desc", top_n := 50, select_columns := none, limit := 100 }
      [("Name", ⟨"Name", "string", "TEXT", true, "Name", "col_name"⟩)] = .error e) ∧
    _validate_operator_type_compat "eq"
      ⟨"When", "date", "INTEGER", true, "When", "col_when"⟩ = .ok () := by
  refine ⟨?_, ?_, ?_⟩
  · exact validate_plan_rejects_incompatible_operator_types.1 _ _
      ⟨"When", "contains", some (.str "Jan")⟩
      ⟨"When", "date", "INTEGER", true, "When", "col_when"⟩
      (List.mem_singleton.mpr rfl) rfl (by right; left; exact ⟨by decide, by decide⟩)
  · exact validate_plan_rejects_incompatible_operator_types.2.1 _ _
      "Name" ⟨"Name", "string", "TEXT", true, "Name", "col_name"⟩
      (by decide) rfl (by decide) rfl (by decide)
  · exact validate_plan_rejects_incompatible_operator_types.2.2 "eq" _ (by decide)

/-- C9 counterexample: a `count_rows` plan naming the internal column
`_source_row_number` as `group_by` passes validation, because the
validator only consults `group_by` for the `groupby_count` operation. -/
theorem underscore_group_by_passes_validation :
    validate_plan
      { document_id := "doc-1", sheet_name := none, operation := "count_rows",
        target_column := none, group_by := some "_source_row_number", filters := [],
        order := "count_desc", top_n := 50, select_columns := none, limit := 100 }
      [("_source_row_number",
          ⟨"_source_row_number", "integer", "INTEGER", false,
            "_source_row_number", "col_source_row_number"⟩),
        ("Name", ⟨"Name", "string", "TEXT", true, "Name", "col_name"⟩)] = .ok () := by
  rfl

/-- C9 (amended): `validate_plan` rejects a column whose original name
begins with `_` in every position it consults for the plan's operation —
a truthy `target_column` always, `group_by` (or its `target_column`
fallback) for `groupby_count`, members of a non-empty `select_columns`
for `select_rows`, and every filter column — because such names are
filtered out of the visible-column view. Positions the operation ignores
(e.g. `group_by` on `count_rows`) are not checked. -/
theorem validate_plan_blocks_internal_columns :
    (∀ (plan : AnalyticsPlan) (columns : List (String × ColumnMetadata)) (t : String),
      plan.target_column = some t → t ≠ "" → startsWithUnderscore t = true →
      ∃ e, validate_plan plan columns = .error e) ∧
    (∀ (plan : AnalyticsPlan) (columns : List (String × ColumnMetadata)) (g : String),
      plan.operation = "groupby_count" →
      pyOrStr plan.group_by plan.target_column = some g → g ≠ "" →
      startsWithUnderscore g = true →
      ∃ e, validate_plan plan columns = .error e) ∧
    (∀ (plan : AnalyticsPlan) (columns : List (String × ColumnMetadata))
      (c : String) (l : List String),
      plan.operation = "select_rows" → plan.select_columns = some l → c ∈ l →
      startsWithUnderscore c = true →
      ∃ e, validate_plan plan columns = .error e) ∧
    (∀ (plan : AnalyticsPlan) (columns : List (String × ColumnMetadata))
      (f : AnalyticsFilter), f ∈ plan.filters → startsWithUnderscore f.column = true →
      ∃ e, validate_plan plan columns = .error e) := by
  refine ⟨?_, ?_, ?_, ?_⟩
  · intro plan columns t hts htne hu
    cases hv : validate_plan plan columns with
    | error e => exact ⟨e, rfl⟩
    | ok u =>
      cases u
      exfalso
      have htv := (validate_plan_ok_stages hv).2.1
      unfold checkTargetVisible at htv
      rw [hts] at htv
      dsimp only at htv
      rw [if_pos ⟨htne, by rw [dictGet_visible_eq_none hu]; rfl⟩] at htv
      exact Except.noConfusion htv
  · intro plan columns g hop hg hgne hu
    cases hv : validate_plan plan columns with
    | error e => exact ⟨e, rfl⟩
    | ok u =>
      cases u
      exfalso
      have hgb := (validate_plan_ok_stages hv).2.2.2.1
      unfold checkGroupBy at hgb
      rw [if_pos hop, hg] at hgb
      have htruthy : optStrTruthy (some g) = true := by simp [optStrTruthy, hgne]
      rw [if_neg (by simp [htruthy])] at hgb
      rw [if_pos (by simp [dictGet_visible_eq_none hu])] at hgb
      exact Except.noConfusion hgb
  · intro plan columns c l hop hsel hc hu
    cases hv : validate_plan plan columns with
    | error e => exact ⟨e, rfl⟩
    | ok u =>
      cases u
      exfalso
      have hsc := (validate_plan_ok_stages hv).2.2.2.2.1
      unfold checkSelectColumns at hsc
      rw [if_pos hop, hsel] at hsc
      dsimp only at hsc
      have hlne : l ≠ [] := by rintro rfl; cases hc
      rw [if_pos hlne] at hsc
      have := checkCols_ok hsc c hc
      rw [dictGet_visible_eq_none hu] at this
      exact Bool.noConfusion this
  · intro plan columns f hf hu
    cases hv : validate_plan plan columns with
    | error e => exact ⟨e, rfl⟩
    | ok u =>
      cases u
      exfalso
      have hfil := (validate_plan_ok_stages hv).2.2.2.2.2
      obtain ⟨meta, hd, _⟩ := checkFilters_ok hfil f hf
      rw [dictGet_visible_eq_none hu] at hd
      exact Option.noConfusion hd

theorem validate_plan_blocks_internal_witness :
    ∃ e, validate_plan
      { document_id := "doc-1", sheet_name := none, operation := "count_rows",
        target_column := none, group_by := none,
        filters := [⟨"_source_row_number", "eq", some (.int 3)⟩],
        order := "count_desc", top_n := 50, select_columns := none, limit := 100 }
      [("_source_row_number",
          ⟨"_source_row_number", "integer", "INTEGER", false,
            "_source_row_number", "col_source_row_number"⟩)] = .error e :=
  validate_plan_blocks_internal_columns.2.2.2 _ _
    ⟨"_source_row_number", "eq", some (.int 3)⟩
    (List.mem_singleton.mpr rfl) (by decide)

/-! ## Year partition over stored date columns (C3)

A stored date cell comes out of `_normalize_cell_value(x, 'date')` in
`src/backend/documents.py`: a calendar date plus a second-of-day offset,
stored as UTC epoch seconds; unparseable or missing cells are stored as
SQL `NULL` (the function returns `None`). `count_rows` is
`SELECT COUNT(1)` with the compiled `WHERE`; under SQLite's three-valued
logic a `NULL` cell satisfies no `year_equals` range predicate. -/

structure DateCell where
  y : Nat
  m : Nat
  d : Nat
  sec : Nat
deriving DecidableEq

/-- The stored epoch value of a non-NULL date cell. -/
def cellEpoch (c : DateCell) : Int :=
  epochOfDate c.y c.m c.d + (c.sec : Int)

def validCell (c : DateCell) : Prop :=
  validDate c.y c.m c.d ∧ c.sec < 86400

instance (c : DateCell) : Decidable (validCell c) := by
  unfold validCell; infer_instance

/-- The compiled `year_equals` predicate on a stored cell (`NULL` never
satisfies a comparison). -/
def yearFilterPred (Y : Nat) : Option DateCell → Bool
  | none => false
  | some c =>
    decide (epochOfDate Y 1 1 ≤ cellEpoch c ∧ cellEpoch c < epochOfDate (Y + 1) 1 1)

/-- `count_rows` with a single `year_equals(Y)` filter over a stored date
column. -/
def countRowsYearEquals (Y : Nat) (col : List (Option DateCell)) : Nat :=
  (col.filter (yearFilterPred Y)).length

/-- `count_rows` with no filter. -/
def countRowsNoFilter (col : List (Option DateCell)) : Nat :=
  col.length

/-- The distinct years observed among the column's non-NULL cells. -/
def observedYears (col : List (Option DateCell)) : List Nat :=
  ((col.filterMap id).map (fun c => c.y)).dedup

theorem cell_in_year_range_iff (Y : Nat) (c : DateCell) (hv : validCell c) :
    (epochOfDate Y 1 1 ≤ cellEpoch c ∧ cellEpoch c < epochOfDate (Y + 1) 1 1) ↔
      c.y = Y := by
  obtain ⟨hvd, hs⟩ := hv
  unfold cellEpoch
  rw [epochOfDate_eq_epochOfOrdinal, epochOfDate_eq_epochOfOrdinal,
    epochOfDate_eq_epochOfOrdinal,
    epochOfOrdinal_le_iff _ _ _ hs, epochOfOrdinal_lt_iff _ _ _ hs]
  exact toordinal_year_range_iff Y hvd

theorem filter_length_over_nonnull (p : Option DateCell → Bool)
    (hp : p none = false) (col : List (Option DateCell)) :
    (col.filter p).length = ((col.filterMap id).filter (fun c => p (some c))).length := by
  induction col with
  | nil => rfl
  | cons a rest ih =>
    cases a with
    | none => simpa [List.filter, List.filterMap, hp] using ih
    | some c =>
      by_cases hc : p (some c) = true
      · simpa [List.filter, List.filterMap, hc] using congrArg Nat.succ ih
      · simpa [List.filter, List.filterMap, hc] using ih

theorem countRowsYearEquals_eq_count (Y : Nat) (col : List (Option DateCell))
    (hval : ∀ c ∈ col.filterMap id, validCell c) :
    countRowsYearEquals Y col = ((col.filterMap id).map (fun c => c.y)).count Y := by
  unfold countRowsYearEquals
  rw [filter_length_over_nonnull _ rfl]
  have hcongr : (col.filterMap id).filter (fun c => yearFilterPred Y (some c)) =
      (col.filterMap id).filter (fun c => c.y == Y) := by
    apply List.filter_congr
    intro c hc
    unfold yearFilterPred
    have := cell_in_year_range_iff Y c (hval c hc)
    simp only [decide_eq_decide.mpr this]
    rw [Bool.eq_iff_iff]
    simp
  rw [hcongr]
  have : ∀ nn : List DateCell,
      (nn.filter (fun c => c.y == Y)).length = (nn.map (fun c => c.y)).count Y := by
    intro nn
    induction nn with
    | nil => rfl
    | cons c rest ih =>
      by_cases h : c.y = Y <;> simp [List.count_cons, List.filter_cons, h, ih]
  exact this _

theorem filterMap_id_length_of_no_none {α : Type} {l : List (Option α)}
    (h : none ∉ l) : (l.filterMap id).length = l.length := by
  induction l with
  | nil => rfl
  | cons a rest ih =>
    cases a with
    | none => exact absurd (List.mem_cons_self _ _) h
    | some c =>
      simp [List.filterMap_cons, ih (fun hm => h (List.mem_cons_of_mem _ hm))]

/-- C3 counterexample: a stored date column holding one 2021 date and one
SQL `NULL` (an unparseable or blank cell, stored by
`_normalize_cell_value` as `None`). `year_equals` matches no `NULL`, so
the per-year counts sum to 1 while the unfiltered `count_rows` is 2. -/
theorem year_partition_fails_on_null_cells :
    ((observedYears [some ⟨2021, 5, 7, 0⟩, none]).map
        (fun Y => countRowsYearEquals Y [some ⟨2021, 5, 7, 0⟩, none])).sum ≠
      countRowsNoFilter [some ⟨2021, 5, 7, 0⟩, none] := by
  decide

/-- C3 (amended): summing `count_rows` under `year_equals(Y)` over the
distinct years observed in a stored date column equals the number of rows
whose value in that column is non-NULL; when the column contains no NULLs
this equals `count_rows` with no filter. -/
theorem year_partition_counts_nonnull_rows (col : List (Option DateCell))
    (hval : ∀ c ∈ col.filterMap id, validCell c) :
    ((observedYears col).map (fun Y => countRowsYearEquals Y col)).sum =
      (col.filterMap id).length ∧
    (none ∉ col →
      ((observedYears col).map (fun Y => countRowsYearEquals Y col)).sum =
        countRowsNoFilter col) := by
  have h1 : ((observedYears col).map (fun Y => countRowsYearEquals Y col)).sum =
      (col.filterMap id).length := by
    have hmap : (observedYears col).map (fun Y => countRowsYearEquals Y col) =
        (observedYears col).map
          (fun Y => ((col.filterMap id).map (fun c => c.y)).count Y) := by
      apply List.map_congr_left
      intro Y _
      exact countRowsYearEquals_eq_count Y col hval
    rw [hmap]
    unfold observedYears
    rw [List.sum_map_count_dedup_eq_length]
    exact List.length_map _ _
  refine ⟨h1, fun hn => ?_⟩
  rw [h1]
  unfold countRowsNoFilter
  exact filterMap_id_length_of_no_none hn

theorem year_partition_witness :
    (∀ c ∈ ([some ⟨2020, 1, 2, 0⟩, some ⟨2021, 12, 31, 86399⟩,
        some ⟨2020, 6, 1, 3600⟩] : List (Option DateCell)).filterMap id,
      validCell c) ∧
    ((observedYears [some ⟨2020, 1, 2, 0⟩, some ⟨2021, 12, 31, 86399⟩,
        some ⟨2020, 6, 1, 3600⟩]).map
      (fun Y => countRowsYearEquals Y
        [some ⟨2020, 1, 2, 0⟩, some ⟨2021, 12, 31, 86399⟩,
          some ⟨2020, 6, 1, 3600⟩])).sum =
      countRowsNoFilter [some ⟨2020, 1, 2, 0⟩, some ⟨2021, 12, 31, 86399⟩,
        some ⟨2020, 6, 1, 3600⟩] :=
  ⟨by decide,
    (year_partition_counts_nonnull_rows _ (by decide)).2 (by decide)⟩

/-! ## Context budget allocator (`ChatService._allocate_budget`,
`src/backend/services/chat_service.py`)

Python `str` is embedded as `List Char` (so `len` is `List.length` and
`s[:n]` is `pyTake`). `web_budget = int(total * web_budget_fraction)` is a
floating-point product in the source; the embedding carries `web_budget`
as a field, and the theorems assume `0 ≤ web_budget ≤ total`, which holds
whenever `web_budget_fraction ∈ [0, 1]` (§4.10 of the spec) and the total
is non-negative. -/

/-- Python's `t[:n]` for an `int` `n` (negative `n` cuts from the end). -/
def pyTake (t : List Char) (n : Int) : List Char :=
  if 0 ≤ n then t.take n.toNat else t.take (t.length - (-n).toNat)

structure SourceContext where
  url : String
  text : List Char
  timestamp_iso : String
  is_fresh : Bool
  latency_seconds : Int
  filename : Option String
  metadata : Option String
deriving DecidableEq

structure BudgetSettings where
  total_context_budget : Int
  web_budget : Int
  web_max_chars : Int
  doc_max_chars : Int
deriving DecidableEq

def setText (c : SourceContext) (t : List Char) : SourceContext :=
  { c with text := t }

def stripText (c : SourceContext) : SourceContext :=
  { c with text := [] }

/-- `ctx.text[:max_chars] if max_chars > 0 else ctx.text`. -/
def webTruncate (webMax : Int) (t : List Char) : List Char :=
  if 0 < webMax then pyTake t webMax else t

/-- `ctx.text if doc_max == 0 else ctx.text[:doc_max]`. -/
def docCap (docMax : Int) (t : List Char) : List Char :=
  if docMax = 0 then t else pyTake t docMax

/-- The web pass: each input context paired with its admitted text
(`none` when the truncated text does not fit the remaining web budget). -/
def webAllocGo (webBudget webMax : Int) (used : Int) :
    List SourceContext → List (SourceContext × Option (List Char))
  | [] => []
  | ctx :: rest =>
    if used + ((webTruncate webMax ctx.text).length : Int) ≤ webBudget then
      (ctx, some (webTruncate webMax ctx.text)) ::
        webAllocGo webBudget webMax
          (used + ((webTruncate webMax ctx.text).length : Int)) rest
    else
      (ctx, none) :: webAllocGo webBudget webMax used rest

/-- The document pass. The source `break`s when the remaining budget drops
below `min_useful = 200`; since `doc_used` then never changes, marking the
context `none` and recursing is equivalent to breaking. -/
def docAllocGo (docBudget docMax : Int) (used : Int) :
    List SourceContext → List (SourceContext × Option (List Char))
  | [] => []
  | ctx :: rest =>
    if docBudget - used < 200 then
      (ctx, none) :: docAllocGo docBudget docMax used rest
    else if ((docCap docMax ctx.text).length : Int) ≤ docBudget - used then
      (ctx, some (docCap docMax ctx.text)) ::
        docAllocGo docBudget docMax
          (used + ((docCap docMax ctx.text).length : Int)) rest
    else
      (ctx, some (pyTake (docCap docMax ctx.text) (docBudget - used))) ::
        docAllocGo docBudget docMax
          (used + ((pyTake (docCap docMax ctx.text) (docBudget - used)).length : Int)) rest

def markLen (o : Option (List Char)) : Int :=
  match o with
  | some t => (t.length : Int)
  | none => 0

def sumMarks (marks : List (SourceContext × Option (List Char))) : Int :=
  (marks.map (fun p => markLen p.2)).sum

/-- Characters the web pass consumed (`web_used` after the first loop). -/
def webUsedTotal (s : BudgetSettings) (web : List SourceContext) : Int :=
  sumMarks (webAllocGo s.web_budget s.web_max_chars 0 web)

/-- `ChatService._allocate_budget`: the included web contexts (truncated)
followed by the included document contexts (capped / hard-truncated),
with `doc_budget = total - web_used` after the unused web budget rolls
over. -/
def _allocate_budget (s : BudgetSettings) (web doc : List SourceContext) :
    List SourceContext :=
  let webMarks := webAllocGo s.web_budget s.web_max_chars 0 web
  let docMarks := docAllocGo (s.total_context_budget - webUsedTotal s web)
    s.doc_max_chars 0 doc
  (webMarks ++ docMarks).filterMap (fun p => p.2.map (setText p.1))

theorem markLen_nonneg (o : Option (List Char)) : 0 ≤ markLen o := by
  cases o <;> simp [markLen]

theorem sumMarks_cons (p : SourceContext × Option (List Char))
    (ps : List (SourceContext × Option (List Char))) :
    sumMarks (p :: ps) = markLen p.2 + sumMarks ps := by
  simp [sumMarks]

theorem sumMarks_nonneg (ps : List (SourceContext × Option (List Char))) :
    0 ≤ sumMarks ps := by
  induction ps with
  | nil => simp [sumMarks]
  | cons p rest ih =>
    rw [sumMarks_cons]
    have := markLen_nonneg p.2
    omega

theorem webAlloc_sum_le (wb wm : Int) :
    ∀ (l : List SourceContext) (used : Int), used ≤ wb →
      used + sumMarks (webAllocGo wb wm used l) ≤ wb := by
  intro l
  induction l with
  | nil => intro used h; simpa [sumMarks, webAllocGo] using h
  | cons c rest ih =>
    intro used h
    unfold webAllocGo
    by_cases hc : used + ((webTruncate wm c.text).length : Int) ≤ wb
    · rw [if_pos hc, sumMarks_cons]
      have := ih _ hc
      simp only [markLen]
      omega
    · rw [if_neg hc, sumMarks_cons]
      have := ih _ h
      simp only [markLen]
      omega

theorem pyTake_length_le {t : List Char} {n : Int} (hn : 0 ≤ n) :
    ((pyTake t n).length : Int) ≤ n := by
  unfold pyTake
  rw [if_pos hn]
  have h := List.length_take n.toNat t
  have : (n.toNat : Int) = n := Int.toNat_of_nonneg hn
  simp [h]
  omega

theorem docAlloc_sum_le (B dm : Int) :
    ∀ (l : List SourceContext) (used : Int), used ≤ B →
      used + sumMarks (docAllocGo B dm used l) ≤ B := by
  intro l
  induction l with
  | nil => intro used h; simpa [sumMarks, docAllocGo] using h
  | cons c rest ih =>
    intro used h
    unfold docAllocGo
    by_cases h200 : B - used < 200
    · rw [if_pos h200, sumMarks_cons]
      have := ih _ h
      simp only [markLen]
      omega
    · rw [if_neg h200]
      by_cases hfit : ((docCap dm c.text).length : Int) ≤ B - used
      · rw [if_pos hfit, sumMarks_cons]
        have := ih (used + ((docCap dm c.text).length : Int)) (by omega)
        simp only [markLen]
        omega
      · rw [if_neg hfit, sumMarks_cons]
        have hlen : ((pyTake (docCap dm c.text) (B - used)).length : Int) ≤ B - used :=
          pyTake_length_le (by omega)
        have := ih (used + ((pyTake (docCap dm c.text) (B - used)).length : Int))
          (by omega)
        simp only [markLen]
        omega

theorem docAlloc_all_none_of_low (B dm : Int) :
    ∀ (l : List SourceContext) (used : Int), B - used < 200 →
      docAllocGo B dm used l = l.map (fun c => (c, none)) := by
  intro l
  induction l with
  | nil => intro used _; rfl
  | cons c rest ih =>
    intro used h
    unfold docAllocGo
    rw [if_pos h, ih _ h]
    rfl

theorem alloc_textLen_sum
    (marks : List (SourceContext × Option (List Char))) :
    (((marks.filterMap (fun p => p.2.map (setText p.1))).map
        (fun c => (c.text.length : Int)))).sum = sumMarks marks := by
  induction marks with
  | nil => rfl
  | cons p rest ih =>
    obtain ⟨c, o⟩ := p
    cases o with
    | none => simpa [List.filterMap_cons, sumMarks_cons, markLen] using ih
    | some t =>
      simp [List.filterMap_cons, sumMarks_cons, markLen, setText, ih]

theorem marks_strip_sublist
    (marks : List (SourceContext × Option (List Char))) :
    List.Sublist
      ((marks.filterMap (fun p => p.2.map (setText p.1))).map stripText)
      ((marks.map Prod.fst).map stripText) := by
  induction marks with
  | nil => exact List.Sublist.refl _
  | cons p rest ih =>
    obtain ⟨c, o⟩ := p
    cases o with
    | none =>
      simp only [List.filterMap_cons, List.map_cons, Option.map_none']
      exact ih.cons _
    | some t =>
      simp only [List.filterMap_cons, List.map_cons, Option.map_some']
      have heq : stripText (setText c t) = stripText c := rfl
      rw [heq]
      exact ih.cons₂ _

theorem webAlloc_fst (wb wm : Int) :
    ∀ (l : List SourceContext) (used : Int),
      (webAllocGo wb wm used l).map Prod.fst = l := by
  intro l
  induction l with
  | nil => intro used; rfl
  | cons c rest ih =>
    intro used
    unfold webAllocGo
    split <;> simp [ih]

theorem docAlloc_fst (B dm : Int) :
    ∀ (l : List SourceContext) (used : Int),
      (docAllocGo B dm used l).map Prod.fst = l := by
  intro l
  induction l with
  | nil => intro used; rfl
  | cons c rest ih =>
    intro used
    unfold docAllocGo
    split
    · simp [ih]
    · split <;> simp [ih]

theorem sumMarks_all_none (l : List SourceContext) :
    sumMarks (l.map fun c => (c, none)) = 0 := by
  induction l with
  | nil => rfl
  | cons c rest ih => simpa [sumMarks_cons, markLen] using ih

/-- C4: the budget allocator never exceeds `total_context_budget` in total
returned text, returns every admitted web context before every admitted
document context, and preserves the input order within each class (the
outputs, up to text truncation, are sublists of the inputs). Assumes
`0 ≤ web_budget ≤ total`, which the source guarantees for
`web_budget_fraction ∈ [0, 1]`. -/
theorem allocate_budget_bounded_and_ordered (s : BudgetSettings)
    (web doc : List SourceContext)
    (hw0 : 0 ≤ s.web_budget) (hwt : s.web_budget ≤ s.total_context_budget) :
    (∃ wout dout, _allocate_budget s web doc = wout ++ dout ∧
      List.Sublist (wout.map stripText) (web.map stripText) ∧
      List.Sublist (dout.map stripText) (doc.map stripText)) ∧
    ((_allocate_budget s web doc).map (fun c => (c.text.length : Int))).sum ≤
      s.total_context_budget := by
  have halloc : _allocate_budget s web doc =
      (webAllocGo s.web_budget s.web_max_chars 0 web).filterMap
        (fun p => p.2.map (setText p.1)) ++
      (docAllocGo (s.total_context_budget - webUsedTotal s web)
          s.doc_max_chars 0 doc).filterMap
        (fun p => p.2.map (setText p.1)) := by
    unfold _allocate_budget
    rw [List.filterMap_append]
  constructor
  · refine ⟨_, _, halloc, ?_, ?_⟩
    · have h := marks_strip_sublist (webAllocGo s.web_budget s.web_max_chars 0 web)
      rwa [webAlloc_fst] at h
    · have h := marks_strip_sublist (docAllocGo
        (s.total_context_budget - webUsedTotal s web) s.doc_max_chars 0 doc)
      rwa [docAlloc_fst] at h
  · rw [halloc, List.map_append, List.sum_append, alloc_textLen_sum, alloc_textLen_sum]
    have hwe : 0 + sumMarks (webAllocGo s.web_budget s.web_max_chars 0 web) ≤
        s.web_budget := webAlloc_sum_le s.web_budget s.web_max_chars web 0 hw0
    have hwe0 : 0 ≤ sumMarks (webAllocGo s.web_budget s.web_max_chars 0 web) :=
      sumMarks_nonneg _
    have hBdef : webUsedTotal s web =
        sumMarks (webAllocGo s.web_budget s.web_max_chars 0 web) := rfl
    by_cases hBpos : 0 ≤ s.total_context_budget - webUsedTotal s web
    · have := docAlloc_sum_le (s.total_context_budget - webUsedTotal s web)
        s.doc_max_chars doc 0 hBpos
      omega
    · rw [docAlloc_all_none_of_low _ s.doc_max_chars doc 0 (by omega),
        sumMarks_all_none]
      omega

theorem allocate_budget_bounded_witness :
    (∃ wout dout,
      _allocate_budget ⟨100, 40, 10, 0⟩
        [⟨"http://a", List.replicate 30 'a', "t", true, 0, none, none⟩]
        [⟨"doc://d", List.replicate 500 'b', "t", false, 0, none, none⟩] =
        wout ++ dout ∧
      List.Sublist (wout.map stripText)
        ([⟨"http://a", List.replicate 30 'a', "t", true, 0, none, none⟩].map stripText) ∧
      List.Sublist (dout.map stripText)
        ([⟨"doc://d", List.replicate 500 'b', "t", false, 0, none, none⟩].map stripText)) ∧
    ((_allocate_budget ⟨100, 40, 10, 0⟩
        [⟨"http://a", List.replicate 30 'a', "t", true, 0, none, none⟩]
        [⟨"doc://d", List.replicate 500 'b', "t", false, 0, none, none⟩]).map
      (fun c => (c.text.length : Int))).sum ≤ (100 : Int) :=
  allocate_budget_bounded_and_ordered ⟨100, 40, 10, 0⟩ _ _ (by decide) (by decide)

theorem pyTake_length_eq {t : List Char} {n : Int} (hn : 0 ≤ n)
    (h : n ≤ (t.length : Int)) : ((pyTake t n).length : Int) = n := by
  unfold pyTake
  rw [if_pos hn]
  have hle : n.toNat ≤ t.length := by omega
  simp [List.length_take]
  omega

theorem forall2_le_getD {a b : List Int}
    (h : List.Forall₂ (· ≤ ·) a b) : ∀ j, a.getD j 0 ≤ b.getD j 0 := by
  induction h with
  | nil => intro j; simp
  | cons hx _ ih =>
    intro j
    cases j with
    | zero => simpa using hx
    | succ k => simpa using ih k

theorem allNoneLens (l : List SourceContext) :
    (l.map (fun c => (c, (none : Option (List Char))))).map
      (fun p => markLen p.2) = List.replicate l.length (0 : Int) := by
  induction l with
  | nil => rfl
  | cons x xs ih =>
    simp only [List.map_cons, List.length_cons, List.replicate_succ]
    exact congrArg₂ List.cons rfl ih

theorem docAlloc_lens_zero_le (B dm : Int) :
    ∀ (l : List SourceContext) (u : Int),
      List.Forall₂ (· ≤ ·) (List.replicate l.length (0 : Int))
        ((docAllocGo B dm u l).map (fun p => markLen p.2)) := by
  intro l
  induction l with
  | nil => intro u; simp [docAllocGo]
  | cons c rest ih =>
    intro u
    unfold docAllocGo
    split
    · exact List.Forall₂.cons (le_refl 0) (ih u)
    · split
      · exact List.Forall₂.cons (markLen_nonneg _) (ih _)
      · exact List.Forall₂.cons (markLen_nonneg _) (ih _)

theorem docAlloc_mono (B dm : Int) :
    ∀ (l : List SourceContext) (used used' : Int), used' ≤ used →
      List.Forall₂ (· ≤ ·)
        ((docAllocGo B dm used l).map (fun p => markLen p.2))
        ((docAllocGo B dm used' l).map (fun p => markLen p.2)) := by
  intro l
  induction l with
  | nil => intro used used' _; simp [docAllocGo]
  | cons c rest ih =>
    intro used used' hle
    by_cases h1 : B - used < 200
    · rw [docAlloc_all_none_of_low B dm (c :: rest) used h1]
      rw [allNoneLens]
      exact docAlloc_lens_zero_le B dm (c :: rest) used'
    · have h1' : ¬(B - used' < 200) := by omega
      unfold docAllocGo
      rw [if_neg h1, if_neg h1']
      by_cases hfit : ((docCap dm c.text).length : Int) ≤ B - used
      · have hfit' : ((docCap dm c.text).length : Int) ≤ B - used' := by omega
        rw [if_pos hfit, if_pos hfit']
        exact List.Forall₂.cons (le_refl _) (ih _ _ (by omega))
      · rw [if_neg hfit]
        have hlenF : ((pyTake (docCap dm c.text) (B - used)).length : Int) = B - used :=
          pyTake_length_eq (by omega) (by omega)
        by_cases hfit' : ((docCap dm c.text).length : Int) ≤ B - used'
        · rw [if_pos hfit']
          refine List.Forall₂.cons ?_ (ih _ _ ?_)
          · simp only [markLen]
            omega
          · omega
        · rw [if_neg hfit']
          have hlenP : ((pyTake (docCap dm c.text) (B - used')).length : Int) = B - used' :=
            pyTake_length_eq (by omega) (by omega)
          refine List.Forall₂.cons ?_ (ih _ _ ?_)
          · simp only [markLen]
            omega
          · omega

theorem docAlloc_erase (B dm : Int) :
    ∀ (l : List SourceContext) (i : Nat) (used : Int), i < l.length →
      (∀ j, j < i →
        ((docAllocGo B dm used (l.eraseIdx i)).map (fun p => markLen p.2)).getD j 0 =
        ((docAllocGo B dm used l).map (fun p => markLen p.2)).getD j 0) ∧
      (∀ j, i ≤ j →
        ((docAllocGo B dm used l).map (fun p => markLen p.2)).getD (j + 1) 0 ≤
        ((docAllocGo B dm used (l.eraseIdx i)).map (fun p => markLen p.2)).getD j 0) := by
  intro l
  induction l with
  | nil => intro i used hi; exact absurd hi (Nat.not_lt_zero i)
  | cons c rest ih =>
    intro i used hi
    cases i with
    | zero =>
      refine ⟨fun j hj => absurd hj (Nat.not_lt_zero j), fun j _ => ?_⟩
      simp only [List.eraseIdx_cons_zero]
      conv_lhs => rw [show docAllocGo B dm used (c :: rest) =
        (if B - used < 200 then
          (c, none) :: docAllocGo B dm used rest
        else if ((docCap dm c.text).length : Int) ≤ B - used then
          (c, some (docCap dm c.text)) ::
            docAllocGo B dm (used + ((docCap dm c.text).length : Int)) rest
        else
          (c, some (pyTake (docCap dm c.text) (B - used))) ::
            docAllocGo B dm
              (used + ((pyTake (docCap dm c.text) (B - used)).length : Int)) rest)
        from rfl]
      split
      · simp only [List.map_cons, List.getD_cons_succ]
        exact forall2_le_getD (docAlloc_mono B dm rest used used (le_refl _)) j
      · split
        · simp only [List.map_cons, List.getD_cons_succ]
          refine forall2_le_getD (docAlloc_mono B dm rest _ used ?_) j
          have := Int.ofNat_nonneg (docCap dm c.text).length
          omega
        · simp only [List.map_cons, List.getD_cons_succ]
          refine forall2_le_getD (docAlloc_mono B dm rest _ used ?_) j
          have := Int.ofNat_nonneg (pyTake (docCap dm c.text) (B - used)).length
          omega
    | succ k =>
      have hk : k < rest.length := by
        simpa using hi
      simp only [List.eraseIdx_cons_succ]
      by_cases h1 : B - used < 200
      · constructor
        · intro j hj
          show ((docAllocGo B dm used (c :: rest.eraseIdx k)).map
              (fun p => markLen p.2)).getD j 0 = _
          unfold docAllocGo
          rw [if_pos h1, if_pos h1]
          cases j with
          | zero => rfl
          | succ j' =>
            simp only [List.map_cons, List.getD_cons_succ]
            exact (ih k used hk).1 j' (by omega)
        · intro j hj
          cases j with
          | zero => omega
          | succ j' =>
            show ((docAllocGo B dm used (c :: rest)).map
                (fun p => markLen p.2)).getD (j' + 1 + 1) 0 ≤ _
            unfold docAllocGo
            rw [if_pos h1, if_pos h1]
            simp only [List.map_cons, List.getD_cons_succ]
            exact (ih k used hk).2 j' (by omega)
      · by_cases hfit : ((docCap dm c.text).length : Int) ≤ B - used
        · constructor
          · intro j hj
            show ((docAllocGo B dm used (c :: rest.eraseIdx k)).map
                (fun p => markLen p.2)).getD j 0 = _
            unfold docAllocGo
            rw [if_neg h1, if_neg h1, if_pos hfit, if_pos hfit]
            cases j with
            | zero => rfl
            | succ j' =>
              simp only [List.map_cons, List.getD_cons_succ]
              exact (ih k _ hk).1 j' (by omega)
          · intro j hj
            cases j with
            | zero => omega
            | succ j' =>
              show ((docAllocGo B dm used (c :: rest)).map
                  (fun p => markLen p.2)).getD (j' + 1 + 1) 0 ≤ _
              unfold docAllocGo
              rw [if_neg h1, if_neg h1, if_pos hfit, if_pos hfit]
              simp only [List.map_cons, List.getD_cons_succ]
              exact (ih k _ hk).2 j' (by omega)
        · constructor
          · intro j hj
            show ((docAllocGo B dm used (c :: rest.eraseIdx k)).map
                (fun p => markLen p.2)).getD j 0 = _
            unfold docAllocGo
            rw [if_neg h1, if_neg h1, if_neg hfit, if_neg hfit]
            cases j with
            | zero => rfl
            | succ j' =>
              simp only [List.map_cons, List.getD_cons_succ]
              exact (ih k _ hk).1 j' (by omega)
          · intro j hj
            cases j with
            | zero => omega
            | succ j' =>
              show ((docAllocGo B dm used (c :: rest)).map
                  (fun p => markLen p.2)).getD (j' + 1 + 1) 0 ≤ _
              unfold docAllocGo
              rw [if_neg h1, if_neg h1, if_neg hfit, if_neg hfit]
              simp only [List.map_cons, List.getD_cons_succ]
              exact (ih k _ hk).2 j' (by omega)

set_option maxRecDepth 10000 in
/-- C5 counterexample: with `total = 400`, `web_budget = 200`,
`web_max_chars = 1000`, `doc_max_chars = 0`, a 200-char web context and a
400-char document context, the document context is hard-truncated to 200
chars; excluding the web context frees the whole budget and the same
document context comes back with 400 chars — excluding one context
increased another's output length. -/
theorem excluding_context_can_lengthen_another :
    ((_allocate_budget ⟨400, 200, 1000, 0⟩
        [⟨"http://w", List.replicate 200 'a', "t", true, 0, none, none⟩]
        [⟨"doc://d", List.replicate 400 'b', "t", false, 0, none, none⟩]).map
      (fun c => c.text.length)) = [200, 200] ∧
    ((_allocate_budget ⟨400, 200, 1000, 0⟩ []
        [⟨"doc://d", List.replicate 400 'b', "t", false, 0, none, none⟩]).map
      (fun c => c.text.length)) = [400] := by
  constructor <;> decide

/-- C5 (amended): excluding a document context never decreases the output
text length of any other context: the web pass is unchanged (it does not
read the document list), document contexts before the excluded one keep
exactly their output, and every later document context's output is at
least as long as before (its admitted length is `markLen` of its mark in
the allocator's document pass). -/
theorem excluding_doc_context_never_shortens_others
    (s : BudgetSettings) (web doc : List SourceContext) (i : Nat)
    (hi : i < doc.length) :
    (∀ j, j < i →
      ((docAllocGo (s.total_context_budget - webUsedTotal s web) s.doc_max_chars 0
          (doc.eraseIdx i)).map (fun p => markLen p.2)).getD j 0 =
      ((docAllocGo (s.total_context_budget - webUsedTotal s web) s.doc_max_chars 0
          doc).map (fun p => markLen p.2)).getD j 0) ∧
    (∀ j, i ≤ j →
      ((docAllocGo (s.total_context_budget - webUsedTotal s web) s.doc_max_chars 0
          doc).map (fun p => markLen p.2)).getD (j + 1) 0 ≤
      ((docAllocGo (s.total_context_budget - webUsedTotal s web) s.doc_max_chars 0
          (doc.eraseIdx i)).map (fun p => markLen p.2)).getD j 0) :=
  docAlloc_erase (s.total_context_budget - webUsedTotal s web) s.doc_max_chars
    doc i 0 hi

set_option maxRecDepth 10000 in
theorem excluding_doc_context_witness :
    ((docAllocGo (500 - webUsedTotal ⟨500, 0, 0, 0⟩ []) 0 0
        (([⟨"doc://1", List.replicate 300 'a', "t", false, 0, none, none⟩,
            ⟨"doc://2", List.replicate 300 'b', "t", false, 0, none, none⟩] :
          List SourceContext).eraseIdx 1)).map (fun p => markLen p.2)).getD 0 0 =
      ((docAllocGo (500 - webUsedTotal ⟨500, 0, 0, 0⟩ []) 0 0
          [⟨"doc://1", List.replicate 300 'a', "t", false, 0, none, none⟩,
            ⟨"doc://2", List.replicate 300 'b', "t", false, 0, none, none⟩]).map
        (fun p => markLen p.2)).getD 0 0 ∧
    ((docAllocGo (500 - webUsedTotal ⟨500, 0, 0, 0⟩ []) 0 0
        [⟨"doc://1", List.replicate 300 'a', "t", false, 0, none, none⟩,
          ⟨"doc://2", List.replicate 300 'b', "t", false, 0, none, none⟩]).map
      (fun p => markLen p.2)).getD (1 + 1) 0 ≤
      ((docAllocGo (500 - webUsedTotal ⟨500, 0, 0, 0⟩ []) 0 0
          (([⟨"doc://1", List.replicate 300 'a', "t", false, 0, none, none⟩,
              ⟨"doc://2", List.replicate 300 'b', "t", false, 0, none, none⟩] :
            List SourceContext).eraseIdx 1)).map (fun p => markLen p.2)).getD 1 0 :=
  ⟨(excluding_doc_context_never_shortens_others ⟨500, 0, 0, 0⟩ []
      [⟨"doc://1", List.replicate 300 'a', "t", false, 0, none, none⟩,
        ⟨"doc://2", List.replicate 300 'b', "t", false, 0, none, none⟩] 1
      (by decide)).1 0 (by decide),
    (excluding_doc_context_never_shortens_others ⟨500, 0, 0, 0⟩ []
      [⟨"doc://1", List.replicate 300 'a', "t", false, 0, none, none⟩,
        ⟨"doc://2", List.replicate 300 'b', "t", false, 0, none, none⟩] 1
      (by decide)).2 1 (by decide)⟩

/-! ## Keyword fallback of document retrieval
(`DocumentRepository.search_chunks_keyword`,
`src/backend/repositories/document_repository.py`)

The SQL is modelled relationally: `document_chunks JOIN documents` on
`document_id`, filtered by the branch's `WHERE` clause, ordered by
`chunk_index` (insertion sort stands in for SQLite's `ORDER BY`), limited
to `top_k`. `LOWER(content) LIKE '%token%'` is substring containment in
the lower-cased content (tokens come out of `query.lower()` already). -/

def STOP_WORDS : List String :=
  ["the", "a", "an", "and", "or", "but", "in", "on", "at", "to", "for",
   "of", "with", "by", "from", "is", "it", "its", "that", "this",
   "are", "was", "were", "be", "been", "being", "have", "has", "had",
   "do", "does", "did", "will", "would", "could", "should", "may",
   "can", "you", "me", "my", "your", "who", "what", "how", "where",
   "when", "which", "give", "get", "tell", "show", "find", "please"]

def pyLowerList (s : String) : List Char :=
  s.toList.map Char.toLower

/-- Python's `str.split()`: split on whitespace runs, dropping empties. -/
def splitWsAux : List Char → List Char → List (List Char)
  | [], acc => if acc = [] then [] else [acc.reverse]
  | c :: rest, acc =>
    if c.isWhitespace then
      if acc = [] then splitWsAux rest [] else acc.reverse :: splitWsAux rest []
    else splitWsAux rest (c :: acc)

def splitWs (l : List Char) : List (List Char) :=
  splitWsAux l []

/-- `[t for t in query.lower().split() if len(t) > 2 and t not in STOP_WORDS]`. -/
def filteredTokens (query : String) : List String :=
  ((splitWs (pyLowerList query)).map (fun l => String.mk l)).filter
    (fun t => 2 < t.length && !(STOP_WORDS.contains t))

/-- `query.lower().strip()`, the raw-query fallback. -/
def rawFallback (query : String) : String :=
  String.mk ((((pyLowerList query).dropWhile Char.isWhitespace).reverse.dropWhile
    Char.isWhitespace).reverse)

/-- Tokenization of `search_chunks_keyword`: filtered tokens, raw query
when none remain, at most 10 kept. -/
def tokensOf (query : String) : List String :=
  (if filteredTokens query = [] then [rawFallback query]
    else filteredTokens query).take 10

structure DocRow where
  document_id : String
  status : String
  filename : String
deriving DecidableEq

structure ChunkRow where
  chunk_id : String
  document_id : String
  chunk_index : Int
  content : String
  meta_json : String
  timestamp : String
deriving DecidableEq

structure DocDb where
  documents : List DocRow
  document_chunks : List ChunkRow
deriving DecidableEq

/-- `document_chunks dc JOIN documents d ON dc.document_id = d.document_id`. -/
def joinRows (db : DocDb) : List (ChunkRow × DocRow) :=
  db.document_chunks.flatMap (fun c =>
    (db.documents.filter (fun d => d.document_id = c.document_id)).map
      (fun d => (c, d)))

/-- Substring containment (`needle` occurs contiguously in `hay`). -/
def containsSub (needle : List Char) : List Char → Bool
  | [] => needle.isEmpty
  | c :: rest => needle.isPrefixOf (c :: rest) || containsSub needle rest

/-- The OR of `LOWER(dc.content) LIKE '%t%'` clauses. -/
def matchesAnyToken (toks : List String) (content : String) : Bool :=
  toks.any (fun t => containsSub t.toList (content.toList.map Char.toLower))

/-- `DocumentRepository.search_chunks_keyword`: with a truthy allow-list
the `WHERE` clause is `dc.document_id IN (...) AND (...)`; without one it
is `d.status = 'ready' AND (...)`. -/
def search_chunks_keyword (db : DocDb) (query : String)
    (document_ids : Option (List String)) (top_k : Nat) :
    List (ChunkRow × DocRow) :=
  let toks := tokensOf query
  let filtered : List (ChunkRow × DocRow) :=
    match document_ids with
    | some ids =>
      if ids ≠ [] then
        (joinRows db).filter (fun r =>
          ids.contains r.1.document_id && matchesAnyToken toks r.1.content)
      else
        (joinRows db).filter (fun r =>
          r.2.status == "ready" && matchesAnyToken toks r.1.content)
    | none =>
      (joinRows db).filter (fun r =>
        r.2.status == "ready" && matchesAnyToken toks r.1.content)
  (filtered.insertionSort (fun a b => a.1.chunk_index ≤ b.1.chunk_index)).take top_k

/-- C7 counterexample: with a document of status `processing` supplied in
the allow-list, its chunk is returned — the allow-list branch of the SQL
has no `d.status = 'ready'` condition. -/
theorem keyword_search_allowlist_ignores_status :
    search_chunks_keyword
      ⟨[⟨"d1", "processing", "f.xlsx"⟩],
        [⟨"c1", "d1", 0, "hello world", "x", "t"⟩]⟩
      "hello" (some ["d1"]) 5 =
      [(⟨"c1", "d1", 0, "hello world", "x", "t"⟩,
        ⟨"d1", "processing", "f.xlsx"⟩)] ∧
    ("processing" : String) ≠ "ready" := by
  constructor
  · rfl
  · decide

/-- C7 (amended): the keyword fallback tokenizes the lower-cased query,
drops stopwords and tokens of length ≤ 2, keeps at most 10 tokens, falls
back to the raw lower-cased stripped query when none remain, and matches
chunks whose lower-cased content contains any token (OR semantics). Only
the invocation WITHOUT a document-id allow-list restricts results to
documents with status `ready`; with a non-empty allow-list the results
are restricted to the listed document ids but not to `ready` status. -/
theorem keyword_search_tokens_and_status :
    (∀ q : String, (tokensOf q).length ≤ 10) ∧
    (∀ q : String, filteredTokens q ≠ [] →
      tokensOf q = (filteredTokens q).take 10 ∧
      ∀ t ∈ tokensOf q, 2 < t.length ∧ ¬(STOP_WORDS.contains t = true)) ∧
    (∀ q : String, filteredTokens q = [] → tokensOf q = [rawFallback q]) ∧
    (∀ (db : DocDb) (q : String) (k : Nat) (r : ChunkRow × DocRow),
      r ∈ search_chunks_keyword db q none k →
      r.2.status = "ready" ∧ matchesAnyToken (tokensOf q) r.1.content = true ∧
      r ∈ joinRows db) ∧
    (∀ (db : DocDb) (q : String) (ids : List String) (k : Nat)
      (r : ChunkRow × DocRow), ids ≠ [] →
      r ∈ search_chunks_keyword db q (some ids) k →
      ids.contains r.1.document_id = true ∧
      matchesAnyToken (tokensOf q) r.1.content = true ∧ r ∈ joinRows db) := by
  refine ⟨?_, ?_, ?_, ?_, ?_⟩
  · intro q
    unfold tokensOf
    exact List.length_take_le _ _
  · intro q h
    unfold tokensOf
    rw [if_neg h]
    refine ⟨rfl, fun t ht => ?_⟩
    have ht' := List.mem_of_mem_take ht
    unfold filteredTokens at ht'
    have := List.mem_filter.mp ht'
    have hb := this.2
    simp only [Bool.and_eq_true, decide_eq_true_eq, Bool.not_eq_true'] at hb
    constructor
    · exact hb.1
    · intro hmem
      rw [hmem] at hb
      exact Bool.noConfusion hb.2
  · intro q h
    unfold tokensOf
    rw [if_pos h]
    rfl
  · intro db q k r hr
    unfold search_chunks_keyword at hr
    have hr1 := List.mem_of_mem_take hr
    have hr2 := (List.perm_insertionSort
      (fun a b : ChunkRow × DocRow => a.1.chunk_index ≤ b.1.chunk_index) _).mem_iff.mp hr1
    have := List.mem_filter.mp hr2
    have hb := this.2
    simp only [Bool.and_eq_true, beq_iff_eq] at hb
    exact ⟨hb.1, hb.2, this.1⟩
  · intro db q ids k r hids hr
    unfold search_chunks_keyword at hr
    dsimp only at hr
    rw [if_pos hids] at hr
    have hr1 := List.mem_of_mem_take hr
    have hr2 := (List.perm_insertionSort
      (fun a b : ChunkRow × DocRow => a.1.chunk_index ≤ b.1.chunk_index) _).mem_iff.mp hr1
    have := List.mem_filter.mp hr2
    have hb := this.2
    simp only [Bool.and_eq_true] at hb
    exact ⟨hb.1, hb.2, this.1⟩

theorem keyword_search_tokens_witness :
    (tokensOf "please find the delivery date for order 42").length ≤ 10 ∧
    (∀ r : ChunkRow × DocRow,
      r ∈ search_chunks_keyword
        ⟨[⟨"d1", "ready", "f.xlsx"⟩], [⟨"c1", "d1", 0, "delivery date", "x", "t"⟩]⟩
        "delivery" none 5 →
      r.2.status = "ready") :=
  ⟨keyword_search_tokens_and_status.1 "please find the delivery date for order 42",
    fun r hr => (keyword_search_tokens_and_status.2.2.2.1
      ⟨[⟨"d1", "ready", "f.xlsx"⟩], [⟨"c1", "d1", 0, "delivery date", "x", "t"⟩]⟩
      "delivery" 5 r hr).1⟩

/-! ## Safe column names (`_build_safe_column_mapping`,
`src/backend/documents.py`)

`re.sub(r"[^a-zA-Z0-9_]+", "_", s)` followed by `re.sub(r"_+", "_", s)`
is `normChar` (map non-word characters to `_`) followed by collapsing
underscore runs: the second substitution subsumes the first one's
run-collapsing. Decimal rendering of the collision suffix
(`f"{candidate}_{suffix}"`) is `pyNatRepr`, a fuel-based embedding of
Python's `str(int)`. -/

def digitChar (d : Nat) : Char :=
  Char.ofNat (48 + d)

def reprDigits : Nat → Nat → List Char
  | 0, _ => []
  | fuel + 1, n => if n = 0 then [] else digitChar (n % 10) :: reprDigits fuel (n / 10)

def pyNatRepr (n : Nat) : String :=
  if n = 0 then "0" else String.mk ((reprDigits (n + 1) n).reverse)

theorem reprDigits_fuel {f f' n : Nat} (hf : n ≤ f) (hf' : n ≤ f') :
    reprDigits f n = reprDigits f' n := by
  induction f generalizing f' n with
  | zero =>
    have : n = 0 := by omega
    subst this
    cases f' with
    | zero => rfl
    | succ k => simp [reprDigits]
  | succ k ih =>
    cases f' with
    | zero =>
      have : n = 0 := by omega
      subst this
      simp [reprDigits]
    | succ k' =>
      unfold reprDigits
      by_cases h0 : n = 0
      · simp [h0]
      · rw [if_neg h0, if_neg h0]
        have hdlt : n / 10 < n :=
          Nat.div_lt_self (Nat.pos_of_ne_zero h0) (by norm_num)
        have hd : n / 10 ≤ k := by omega
        have hd' : n / 10 ≤ k' := by omega
        rw [ih hd hd']

def reprD (n : Nat) : List Char :=
  reprDigits (n + 1) n

theorem reprD_unfold (n : Nat) (h : n ≠ 0) :
    reprD n = digitChar (n % 10) :: reprD (n / 10) := by
  unfold reprD
  rw [show reprDigits (n + 1) n =
      if n = 0 then [] else digitChar (n % 10) :: reprDigits n (n / 10) from rfl,
    if_neg h]
  congr 1
  exact reprDigits_fuel (Nat.div_le_self n 10) (Nat.le_succ _)

theorem digitChar_inj :
    ∀ a b, a < 10 → b < 10 → digitChar a = digitChar b → a = b := by
  intro a b ha hb h
  interval_cases a <;> interval_cases b <;>
    first
    | rfl
    | exact absurd h (by decide)

theorem reprD_eq_nil_iff (n : Nat) : reprD n = [] ↔ n = 0 := by
  constructor
  · intro h
    by_contra h0
    rw [reprD_unfold n h0] at h
    cases h
  · rintro rfl; rfl

theorem reprD_inj : ∀ n, ∀ m, reprD n = reprD m → n = m := by
  intro n
  induction n using Nat.strong_induction_on with
  | _ n ih =>
    intro m h
    by_cases hn : n = 0
    · subst hn
      have : reprD m = [] := by rw [← h]; rfl
      exact ((reprD_eq_nil_iff m).mp this).symm
    · by_cases hm : m = 0
      · subst hm
        exact absurd ((reprD_eq_nil_iff n).mp (by rw [h]; rfl)) hn
      · rw [reprD_unfold n hn, reprD_unfold m hm] at h
        injection h with h1 h2
        have e1 : n % 10 = m % 10 :=
          digitChar_inj _ _ (Nat.mod_lt _ (by norm_num)) (Nat.mod_lt _ (by norm_num)) h1
        have e2 : n / 10 = m / 10 :=
          ih (n / 10) (Nat.div_lt_self (Nat.pos_of_ne_zero hn) (by norm_num)) (m / 10) h2
        omega

theorem pyNatRepr_inj {n m : Nat} (h : pyNatRepr n = pyNatRepr m) : n = m := by
  unfold pyNatRepr at h
  by_cases hn : n = 0 <;> by_cases hm : m = 0
  · omega
  · exfalso
    rw [if_pos hn, if_neg hm] at h
    have hd := congrArg String.data h
    have hrev : reprD m = ['0'] := by
      have : (reprD m).reverse = ['0'] := by
        simpa using hd.symm
      have := congrArg List.reverse this
      simpa using this
    rw [reprD_unfold m hm] at hrev
    injection hrev with h1 h2
    have : m % 10 = 0 :=
      digitChar_inj _ _ (Nat.mod_lt _ (by norm_num)) (by norm_num) h1
    have : m / 10 = 0 := (reprD_eq_nil_iff _).mp h2
    omega
  · exfalso
    rw [if_neg hn, if_pos hm] at h
    have hd := congrArg String.data h
    have hrev : reprD n = ['0'] := by
      have : (reprD n).reverse = ['0'] := by
        simpa using hd
      have := congrArg List.reverse this
      simpa using this
    rw [reprD_unfold n hn] at hrev
    injection hrev with h1 h2
    have : n % 10 = 0 :=
      digitChar_inj _ _ (Nat.mod_lt _ (by norm_num)) (by norm_num) h1
    have : n / 10 = 0 := (reprD_eq_nil_iff _).mp h2
    omega
  · rw [if_neg hn, if_neg hm] at h
    have hd := congrArg String.data h
    have : (reprD n).reverse = (reprD m).reverse := by simpa using hd
    have := congrArg List.reverse this
    simp at this
    exact reprD_inj n m this

theorem toNat_ofNat_valid (m : Nat) (h : m < 55296) : (Char.ofNat m).toNat = m := by
  unfold Char.ofNat
  rw [dif_pos (Or.inl h)]
  rfl

/-- `[a-zA-Z0-9_]`, the word-character class of the first regex. -/
def isWordChar (c : Char) : Bool :=
  (97 ≤ c.toNat && c.toNat ≤ 122) || (65 ≤ c.toNat && c.toNat ≤ 90) ||
  (48 ≤ c.toNat && c.toNat ≤ 57) || (c.toNat == 95)

/-- `[a-z0-9_]`, the class the produced safe names must stay inside. -/
def isLowerSafeChar (c : Char) : Bool :=
  (97 ≤ c.toNat && c.toNat ≤ 122) || (48 ≤ c.toNat && c.toNat ≤ 57) ||
  (c.toNat == 95)

def normChar (c : Char) : Char :=
  if isWordChar c then c else '_'

/-- Collapse runs of underscores to a single one (`re.sub(r"_+", "_", s)`,
which also subsumes the run-collapsing of the first substitution). -/
def collapseUnderscores : List Char → List Char
  | [] => []
  | [c] => [c]
  | a :: b :: t =>
    if a = '_' && b = '_' then collapseUnderscores (b :: t)
    else a :: collapseUnderscores (b :: t)

/-- `.strip('_')`. -/
def stripEdgeUnderscores (l : List Char) : List Char :=
  ((l.dropWhile (· = '_')).reverse.dropWhile (· = '_')).reverse

/-- The normalized base: `str(raw).strip().lower()`, word-class
substitution, underscore collapsing, edge strip, `or "col"`. -/
def baseName (raw : String) : List Char :=
  if stripEdgeUnderscores (collapseUnderscores
      (((pyStrip raw).map Char.toLower).map normChar)) = [] then
    ['c', 'o', 'l']
  else
    stripEdgeUnderscores (collapseUnderscores
      (((pyStrip raw).map Char.toLower).map normChar))

/-- `candidate = f"col_{base}"`, plus the source's (unreachable) guard
prepending another `col_` when the candidate starts with a digit. -/
def candidateOf (raw : String) : String :=
  if (('c' :: 'o' :: 'l' :: '_' :: baseName raw).headD 'c').isDigit then
    "col_" ++ String.mk ('c' :: 'o' :: 'l' :: '_' :: baseName raw)
  else String.mk ('c' :: 'o' :: 'l' :: '_' :: baseName raw)

/-- The `while unique in used` suffix search: the first free suffix among
`2, 3, …`. A free one exists within `used.length + 1` tries (pigeonhole,
`uniquify_not_mem`), so the bounded search is exhaustive; the `none` arm
is unreachable. -/
def uniquify (used : List String) (cand : String) : String :=
  if !(used.contains cand) then cand
  else
    match (List.range (used.length + 1)).find?
        (fun k => !(used.contains (cand ++ "_" ++ pyNatRepr (k + 2)))) with
    | some k => cand ++ "_" ++ pyNatRepr (k + 2)
    | none => cand

def buildSafeMappingGo (used : List String) : List String → List (String × String)
  | [] => []
  | raw :: rest =>
    (raw, uniquify used (candidateOf raw)) ::
      buildSafeMappingGo (uniquify used (candidateOf raw) :: used) rest

def _build_safe_column_mapping (headers : List String) : List (String × String) :=
  buildSafeMappingGo [] headers

/-- Python-dict lookup over the built pairs (a later duplicate header
overwrites an earlier one, so the last pair wins). -/
def safeLookup (m : List (String × String)) (k : String) : Option String :=
  (m.reverse.find? (fun p => p.1 = k)).map Prod.snd

/-- `^col_[a-z0-9_]+$`. -/
def matchesSafePattern (s : String) : Prop :=
  ∃ rest, s.data = 'c' :: 'o' :: 'l' :: '_' :: rest ∧ rest ≠ [] ∧
    ∀ c ∈ rest, isLowerSafeChar c = true

theorem strDataExt {a b : String} (h : a.data = b.data) : a = b := by
  cases a; cases b; cases h; rfl

theorem toLower_not_upper (c : Char) :
    ¬(65 ≤ (Char.toLower c).toNat ∧ (Char.toLower c).toNat ≤ 90) := by
  unfold Char.toLower
  dsimp only
  split
  · rename_i hcond
    rw [toNat_ofNat_valid _ (by omega)]
    omega
  · rename_i hcond
    omega

theorem normChar_toLower_safe (c : Char) :
    isLowerSafeChar (normChar (Char.toLower c)) = true := by
  unfold normChar
  by_cases hw : isWordChar (Char.toLower c) = true
  · rw [if_pos hw]
    have hnu := toLower_not_upper c
    unfold isWordChar at hw
    unfold isLowerSafeChar
    simp only [Bool.or_eq_true, Bool.and_eq_true, decide_eq_true_eq,
      beq_iff_eq] at hw ⊢
    omega
  · rw [if_neg hw]
    decide

theorem mem_collapseUnderscores {c : Char} :
    ∀ {l : List Char}, c ∈ collapseUnderscores l → c ∈ l := by
  intro l
  induction l with
  | nil => intro h; cases h
  | cons a rest ih =>
    intro h
    cases rest with
    | nil => exact h
    | cons b t =>
      unfold collapseUnderscores at h
      split at h
      · exact List.mem_cons_of_mem a (ih h)
      · rcases List.mem_cons.mp h with rfl | h'
        · exact List.mem_cons_self _ _
        · exact List.mem_cons_of_mem a (ih h')

theorem mem_stripEdgeUnderscores {c : Char} {l : List Char}
    (h : c ∈ stripEdgeUnderscores l) : c ∈ l := by
  unfold stripEdgeUnderscores at h
  rw [List.mem_reverse] at h
  have h1 := (List.dropWhile_sublist _).subset h
  rw [List.mem_reverse] at h1
  exact (List.dropWhile_sublist _).subset h1

theorem baseName_safe (raw : String) :
    baseName raw ≠ [] ∧ ∀ c ∈ baseName raw, isLowerSafeChar c = true := by
  unfold baseName
  split
  · refine ⟨by simp, fun c hc => ?_⟩
    fin_cases hc <;> decide
  · rename_i hne
    refine ⟨hne, fun c hc => ?_⟩
    have h1 := mem_collapseUnderscores (mem_stripEdgeUnderscores hc)
    rw [List.mem_map] at h1
    obtain ⟨d, hd, rfl⟩ := h1
    rw [List.mem_map] at hd
    obtain ⟨e, _, rfl⟩ := hd
    exact normChar_toLower_safe e

theorem candidateOf_eq (raw : String) :
    candidateOf raw = String.mk ('c' :: 'o' :: 'l' :: '_' :: baseName raw) := rfl

theorem candidateOf_pattern (raw : String) :
    matchesSafePattern (candidateOf raw) := by
  refine ⟨baseName raw, ?_, (baseName_safe raw).1, (baseName_safe raw).2⟩
  rw [candidateOf_eq]

theorem isLowerSafeChar_digitChar {d : Nat} (hd : d < 10) :
    isLowerSafeChar (digitChar d) = true := by
  unfold isLowerSafeChar digitChar
  rw [toNat_ofNat_valid _ (by omega)]
  simp only [Bool.or_eq_true, Bool.and_eq_true, decide_eq_true_eq, beq_iff_eq]
  omega

theorem reprD_chars_safe : ∀ n, ∀ c ∈ reprD n, isLowerSafeChar c = true := by
  intro n
  induction n using Nat.strong_induction_on with
  | _ n ih =>
    intro c hc
    by_cases hn : n = 0
    · subst hn; cases hc
    · rw [reprD_unfold n hn] at hc
      rcases List.mem_cons.mp hc with rfl | hc'
      · exact isLowerSafeChar_digitChar (Nat.mod_lt _ (by norm_num))
      · exact ih (n / 10) (Nat.div_lt_self (Nat.pos_of_ne_zero hn) (by norm_num)) c hc'

theorem pyNatRepr_chars_safe (k : Nat) :
    ∀ c ∈ (pyNatRepr k).data, isLowerSafeChar c = true := by
  intro c hc
  unfold pyNatRepr at hc
  split at hc
  · have hc' : c ∈ ['0'] := hc
    rcases List.mem_singleton.mp hc' with rfl
    decide
  · have hc' : c ∈ (reprD k).reverse := hc
    rw [List.mem_reverse] at hc'
    exact reprD_chars_safe k c hc'

theorem suffixed_pattern {s : String} (h : matchesSafePattern s) (k : Nat) :
    matchesSafePattern (s ++ "_" ++ pyNatRepr k) := by
  obtain ⟨rest, hdata, hne, hsafe⟩ := h
  refine ⟨rest ++ '_' :: (pyNatRepr k).data, ?_, by simp, ?_⟩
  · rw [String.data_append, String.data_append, hdata]
    simp
  · intro c hc
    rcases List.mem_append.mp hc with h1 | h2
    · exact hsafe c h1
    · rcases List.mem_cons.mp h2 with rfl | h3
      · decide
      · exact pyNatRepr_chars_safe k c h3

theorem uniquify_pattern {cand : String} (used : List String)
    (h : matchesSafePattern cand) : matchesSafePattern (uniquify used cand) := by
  unfold uniquify
  split
  · exact h
  · split
    · exact suffixed_pattern h _
    · exact h

theorem suffix_append_inj (cand : String) {a b : Nat}
    (h : cand ++ "_" ++ pyNatRepr a = cand ++ "_" ++ pyNatRepr b) : a = b := by
  have hd := congrArg String.data h
  rw [String.data_append, String.data_append, String.data_append,
    String.data_append] at hd
  have := List.append_cancel_left hd
  exact pyNatRepr_inj (strDataExt this)

theorem nodup_subset_length_le {α : Type} [DecidableEq α] {l1 l2 : List α}
    (h : l1.Nodup) (hs : l1 ⊆ l2) : l1.length ≤ l2.length := by
  classical
  calc l1.length = l1.toFinset.card := by rw [List.toFinset_card_of_nodup h]
    _ ≤ l2.toFinset.card := Finset.card_le_card (by
        intro x hx
        rw [List.mem_toFinset] at hx ⊢
        exact hs hx)
    _ ≤ l2.length := l2.toFinset_card_le

theorem uniquify_not_mem (used : List String) (cand : String) :
    uniquify used cand ∉ used := by
  unfold uniquify
  by_cases hc : used.contains cand = true
  · rw [if_neg (by rw [hc]; decide)]
    cases hf : (List.range (used.length + 1)).find?
        (fun k => !(used.contains (cand ++ "_" ++ pyNatRepr (k + 2)))) with
    | some k =>
      have hp := List.find?_some hf
      simp only [Bool.not_eq_true'] at hp
      intro hmem
      have h2 : used.contains (cand ++ "_" ++ pyNatRepr (k + 2)) = true :=
        List.elem_iff.mpr hmem
      rw [h2] at hp
      exact Bool.noConfusion hp
    | none =>
      exfalso
      have hall : ∀ k ∈ List.range (used.length + 1),
          cand ++ "_" ++ pyNatRepr (k + 2) ∈ used := by
        intro k hk
        have h3 := List.find?_eq_none.mp hf k hk
        simp only [Bool.not_eq_true', Bool.not_eq_false] at h3
        exact List.elem_iff.mp h3
      have hnodup : ((List.range (used.length + 1)).map
          (fun k => cand ++ "_" ++ pyNatRepr (k + 2))).Nodup := by
        refine (List.nodup_range _).map_on ?_
        intro x _ y _ hxy
        have := suffix_append_inj cand hxy
        omega
      have hsub : ((List.range (used.length + 1)).map
          (fun k => cand ++ "_" ++ pyNatRepr (k + 2))) ⊆ used := by
        intro s hs
        rw [List.mem_map] at hs
        obtain ⟨k, hk, rfl⟩ := hs
        exact hall k hk
      have hlen := nodup_subset_length_le hnodup hsub
      rw [List.length_map, List.length_range] at hlen
      omega
  · have hcf : used.contains cand = false := Bool.eq_false_iff.mpr hc
    rw [if_pos (by rw [hcf]; decide)]
    intro hmem
    have h2 : used.contains cand = true := List.elem_iff.mpr hmem
    rw [h2] at hcf
    exact Bool.noConfusion hcf

theorem buildGo_values (headers : List String) :
    ∀ used : List String,
      (∀ v ∈ (buildSafeMappingGo used headers).map Prod.snd, v ∉ used) ∧
      ((buildSafeMappingGo used headers).map Prod.snd).Nodup := by
  induction headers with
  | nil =>
    intro used
    exact ⟨fun v hv => absurd hv (List.not_mem_nil v), List.nodup_nil⟩
  | cons raw rest ih =>
    intro used
    unfold buildSafeMappingGo
    rw [List.map_cons]
    constructor
    · intro v hv
      rcases List.mem_cons.mp hv with rfl | hv'
      · exact uniquify_not_mem used _
      · have h1 := (ih (uniquify used (candidateOf raw) :: used)).1 v hv'
        intro hmem
        exact h1 (List.mem_cons_of_mem _ hmem)
    · rw [List.nodup_cons]
      constructor
      · intro hmem
        exact (ih (uniquify used (candidateOf raw) :: used)).1 _ hmem
          (List.mem_cons_self _ _)
      · exact (ih (uniquify used (candidateOf raw) :: used)).2

theorem buildGo_pattern (headers : List String) :
    ∀ (used : List String) (raw v : String),
      (raw, v) ∈ buildSafeMappingGo used headers → matchesSafePattern v := by
  induction headers with
  | nil => intro used raw v hv; cases hv
  | cons h0 rest ih =>
    intro used raw v hv
    unfold buildSafeMappingGo at hv
    rcases List.mem_cons.mp hv with heq | hv'
    · have hveq : v = uniquify used (candidateOf h0) := congrArg Prod.snd heq
      rw [hveq]
      exact uniquify_pattern used (candidateOf_pattern h0)
    · exact ih _ raw v hv'

theorem pairs_eq_of_nodup_snd :
    ∀ (m : List (String × String)), (m.map Prod.snd).Nodup →
      ∀ p ∈ m, ∀ q ∈ m, p.2 = q.2 → p = q := by
  intro m
  induction m with
  | nil => intro _ p hp; cases hp
  | cons a t ih =>
    intro hnd p hp q hq hpq
    rw [List.map_cons, List.nodup_cons] at hnd
    rcases List.mem_cons.mp hp with rfl | hp' <;>
      rcases List.mem_cons.mp hq with rfl | hq'
    · rfl
    · exfalso
      have hm := List.mem_map_of_mem Prod.snd hq'
      rw [← hpq] at hm
      exact hnd.1 hm
    · exfalso
      have hm := List.mem_map_of_mem Prod.snd hp'
      rw [hpq] at hm
      exact hnd.1 hm
    · exact ih hnd.2 p hp' q hq' hpq

theorem safeLookup_some {m : List (String × String)} {k v : String}
    (h : safeLookup m k = some v) : ∃ p ∈ m, p.1 = k ∧ p.2 = v := by
  unfold safeLookup at h
  cases hf : m.reverse.find? (fun p => p.1 = k) with
  | none => rw [hf] at h; cases h
  | some p =>
    rw [hf] at h
    have hp1 : p.1 = k := by
      have := List.find?_some hf
      simpa using this
    have hmem : p ∈ m := by
      have := List.mem_of_find?_eq_some hf
      rwa [List.mem_reverse] at this
    have hp2 : p.2 = v := by
      injection h
    exact ⟨p, hmem, hp1, hp2⟩

/-- C8 counterexample: headers `"A B"` and `"A-B"` both normalize to base
`a_b`; the collision suffix produces `col_a_b` and `col_a_b_2`, and
`col_a_b` is a strict prefix of `col_a_b_2` — the mapping is not
prefix-free (any collision suffix extends the colliding name). -/
theorem safe_mapping_not_prefix_free :
    _build_safe_column_mapping ["A B", "A-B"] =
      [("A B", "col_a_b"), ("A-B", "col_a_b_2")] ∧
    "col_a_b_2".data = "col_a_b".data ++ ['_', '2'] := by
  constructor
  · rfl
  · rfl

/-- C8 (amended): every safe name the mapping produces matches
`^col_[a-z0-9_]+$` (lower-cased word characters after `col_`), and the
mapping is injective — colliding candidates get `_2`, `_3`, … suffixes in
input order, so two headers never share a safe name. The mapping is a
function of the sheet's own header list alone (its argument), hence
stable across unrelated sheets. It is not prefix-free. -/
theorem safe_mapping_pattern_and_injective :
    (∀ (headers : List String) (raw v : String),
      (raw, v) ∈ _build_safe_column_mapping headers → matchesSafePattern v) ∧
    (∀ (headers : List String) (k1 k2 v : String),
      safeLookup (_build_safe_column_mapping headers) k1 = some v →
      safeLookup (_build_safe_column_mapping headers) k2 = some v →
      k1 = k2) := by
  constructor
  · intro headers raw v hv
    exact buildGo_pattern headers [] raw v hv
  · intro headers k1 k2 v h1 h2
    obtain ⟨p, hp, hp1, hp2⟩ := safeLookup_some h1
    obtain ⟨q, hq, hq1, hq2⟩ := safeLookup_some h2
    have hnd := (buildGo_values headers []).2
    have heq : p = q :=
      pairs_eq_of_nodup_snd _ hnd p hp q hq (by rw [hp2, hq2])
    rw [← hp1, ← hq1, heq]

theorem safe_mapping_witness :
    matchesSafePattern "col_name_2" ∧ ("Name" : String) = "Name" :=
  ⟨safe_mapping_pattern_and_injective.1 ["Name", "name!"] "name!" "col_name_2"
      (by rw [show _build_safe_column_mapping ["Name", "name!"] =
        [("Name", "col_name"), ("name!", "col_name_2")] from rfl]
          exact List.mem_cons_of_mem _ (List.mem_singleton.mpr rfl)),
    safe_mapping_pattern_and_injective.2 ["Name", "name!"] "Name" "Name" "col_name"
      rfl rfl⟩

/-! ## Ingestion and default-sheet registration
(`ingest_excel_to_sqlite`, `src/backend/documents.py`, and
`AnalyticsExecutor.execute`, `src/backend/analytics/executor.py`)

A workbook is modelled as its sheets in order, each reduced to
`(sheet name, row count)` — `df.empty` is `row count = 0`. The registry
state keeps the sheet names whose tables were registered and the
registered default sheet. `register_default_sheet` is called inside the
per-sheet loop, after the empty-sheet `continue`, and only when the
sheet's name equals the first sheet's name. -/

structure IngestState where
  tables : List String
  defaultSheet : Option String
deriving DecidableEq

def ingestGo (default_sheet_name : String) :
    List (String × Nat) → IngestState → IngestState
  | [], st => st
  | (sheet_name, nrows) :: rest, st =>
    if nrows = 0 then ingestGo default_sheet_name rest st
    else
      ingestGo default_sheet_name rest
        { tables := st.tables ++ [sheet_name],
          defaultSheet :=
            if sheet_name = default_sheet_name then some sheet_name
            else st.defaultSheet }

/-- `ingest_excel_to_sqlite`: raises on an empty workbook, otherwise
walks the sheets with `default_sheet_name = next(iter(sheets.keys()))`. -/
def ingest_excel_to_sqlite (sheets : List (String × Nat)) :
    Except String IngestState :=
  match sheets with
  | [] => .error "No sheets found in workbook"
  | (n0, _) :: _ =>
    .ok (ingestGo n0 sheets { tables := [], defaultSheet := none })

/-- The sheet-resolution step of `AnalyticsExecutor.execute`:
`plan.sheet_name or resolve_default_sheet_name(...)`, raising
`AnalyticsRoutingError` when both are missing. -/
def resolveSheetName (st : IngestState) (planSheet : Option String) :
    Except String String :=
  match (if optStrTruthy planSheet then planSheet else st.defaultSheet) with
  | none => .error "No sheet specified and no default sheet registered"
  | some s => .ok s

theorem ingestGo_default_of_no_match (d : String) :
    ∀ (l : List (String × Nat)) (st : IngestState), (∀ p ∈ l, p.1 ≠ d) →
      (ingestGo d l st).defaultSheet = st.defaultSheet := by
  intro l
  induction l with
  | nil => intro st _; rfl
  | cons p rest ih =>
    intro st hne
    obtain ⟨name, nrows⟩ := p
    unfold ingestGo
    split
    · exact ih st (fun q hq => hne q (List.mem_cons_of_mem _ hq))
    · rw [ih _ (fun q hq => hne q (List.mem_cons_of_mem _ hq))]
      simp only
      rw [if_neg (hne (name, nrows) (List.mem_cons_self _ _))]

theorem ingestGo_tables_mono (d : String) :
    ∀ (l : List (String × Nat)) (st : IngestState) (x : String),
      x ∈ st.tables → x ∈ (ingestGo d l st).tables := by
  intro l
  induction l with
  | nil => intro st x hx; exact hx
  | cons p rest ih =>
    intro st x hx
    obtain ⟨name, nrows⟩ := p
    unfold ingestGo
    split
    · exact ih st x hx
    · exact ih _ x (List.mem_append_left _ hx)

theorem ingestGo_tables_of_mem (d : String) :
    ∀ (l : List (String × Nat)) (st : IngestState) (p : String × Nat),
      p ∈ l → p.2 ≠ 0 → p.1 ∈ (ingestGo d l st).tables := by
  intro l
  induction l with
  | nil => intro st p hp; cases hp
  | cons q rest ih =>
    intro st p hp hnz
    obtain ⟨name, nrows⟩ := q
    rcases List.mem_cons.mp hp with rfl | hp'
    · unfold ingestGo
      rw [if_neg hnz]
      exact ingestGo_tables_mono d rest _ _
        (List.mem_append_right _ (List.mem_singleton.mpr rfl))
    · unfold ingestGo
      split
      · exact ih st p hp' hnz
      · exact ih _ p hp' hnz

theorem ingestGo_default_none_or_d (d : String) :
    ∀ (l : List (String × Nat)) (st : IngestState),
      (ingestGo d l st).defaultSheet = st.defaultSheet ∨
      (ingestGo d l st).defaultSheet = some d := by
  intro l
  induction l with
  | nil => intro st; exact Or.inl rfl
  | cons p rest ih =>
    intro st
    obtain ⟨name, nrows⟩ := p
    unfold ingestGo
    split
    · exact ih st
    · by_cases hname : name = d
      · rcases ih ⟨st.tables ++ [name],
          if name = d then some name else st.defaultSheet⟩ with h | h
        · right
          rw [h]
          show (if name = d then some name else st.defaultSheet) = some d
          rw [if_pos hname, hname]
        · exact Or.inr h
      · rcases ih ⟨st.tables ++ [name],
          if name = d then some name else st.defaultSheet⟩ with h | h
        · left
          rw [h]
          show (if name = d then some name else st.defaultSheet) = st.defaultSheet
          rw [if_neg hname]
        · exact Or.inr h

/-- C10: a default sheet is registered only while processing the sheet
first in workbook order. If that first sheet is empty it is skipped and
no default sheet is ever registered (sheet names being distinct in a
workbook), even though every later non-empty sheet is fully ingested;
any plan for the document that omits `sheet_name` (or carries a falsy
one) then fails sheet resolution with a routing error. -/
theorem empty_first_sheet_blocks_default_resolution :
    (∀ (n0 : String) (rest : List (String × Nat)) (st : IngestState),
      (∀ p ∈ rest, p.1 ≠ n0) →
      ingest_excel_to_sqlite ((n0, 0) :: rest) = .ok st →
      st.defaultSheet = none ∧
      (∀ p ∈ rest, p.2 ≠ 0 → p.1 ∈ st.tables) ∧
      (∀ planSheet, optStrTruthy planSheet = false →
        ∃ e, resolveSheetName st planSheet = .error e)) ∧
    (∀ (sheets : List (String × Nat)) (st : IngestState) (n : String),
      ingest_excel_to_sqlite sheets = .ok st → st.defaultSheet = some n →
      sheets.head?.map Prod.fst = some n) := by
  constructor
  · intro n0 rest st hne hok
    have hst : st = ingestGo n0 rest { tables := [], defaultSheet := none } := by
      unfold ingest_excel_to_sqlite at hok
      injection hok with h
      rw [← h]
      rfl
    subst hst
    refine ⟨?_, ?_, ?_⟩
    · rw [ingestGo_default_of_no_match n0 rest _ hne]
    · intro p hp hnz
      exact ingestGo_tables_of_mem n0 rest _ p hp hnz
    · intro planSheet hps
      unfold resolveSheetName
      rw [if_neg (by rw [hps]; decide),
        ingestGo_default_of_no_match n0 rest _ hne]
      exact ⟨_, rfl⟩
  · intro sheets st n hok hdef
    cases sheets with
    | nil => cases hok
    | cons p rest =>
      obtain ⟨n0, r0⟩ := p
      unfold ingest_excel_to_sqlite at hok
      injection hok with h
      rw [← h] at hdef
      rcases ingestGo_default_none_or_d n0 ((n0, r0) :: rest)
          { tables := [], defaultSheet := none } with hcase | hcase
      · rw [hcase] at hdef
        cases hdef
      · rw [hcase] at hdef
        injection hdef with h2
        simp only [List.head?_cons, Option.map_some']
        exact congrArg some h2

theorem empty_first_sheet_witness :
    (⟨["Data"], none⟩ : IngestState).defaultSheet = none ∧
    "Data" ∈ (⟨["Data"], none⟩ : IngestState).tables ∧
    (∃ e, resolveSheetName ⟨["Data"], none⟩ none = .error e) := by
  have h := empty_first_sheet_blocks_default_resolution.1 "Empty"
    [("Data", 5)] ⟨["Data"], none⟩
    (by
      intro p hp
      rcases List.mem_singleton.mp hp with rfl
      decide)
    (by rfl)
  exact ⟨h.1, h.2.1 ("Data", 5) (List.mem_singleton.mpr rfl) (by decide),
    h.2.2 none rfl⟩
